import Mathlib

/-!
rpflag: inter-flag constraints for cobra commands.

A shallow embedding of `rpflag.go` and a verification of its registration
functions (`Conflicts`, `Depends`, `Mandatory`, `OneAtLeast`) and of its
resolver (`Resolve`).

Modelling conventions.

* A Go `map[string]T` is a total function `String → Option T`; a `nil` map and
  an empty map read the same in Go and are both `fun _ => none`.  A `nil`
  slice and an empty slice read the same and are both `[]`.
* The Go `error` result is `Option String`: `none` is `nil`, `some msg` is the
  error built by `fmt.Errorf`.
* `*pflag.Flag` pointers: a command owns its flags; a registration function
  that mutates the flag returned by `cmd.Flag(name)` is modelled by rewriting
  that very flag (the one the lookup finds) inside the command's flag list.
* A closure that assigns to the captured result `err` is a fold whose
  accumulator is `err`; a `return` inside the closure or a `break` of the loop
  inside the closure ends that one callback only, the visit goes on.
-/

namespace Rpflag

/-! ## Constants of the source -/

def kConflicts : String := "conflicts"
def kDepends : String := "depends"
def kOneAtLeast : String := "oneatleast"
def kMandatory : String := "mandatory"

/-! ## The host abstraction: flags and commands -/

/-- Modelled from the spec: `pflag.Flag` belongs to the host library, not to
this repository.  These are the fields `rpflag.go` reads or writes: the long
name, the short alias, the `Changed` bit set by the parser, and the metadata
map from constraint kind to a sequence of strings. -/
structure Flag where
  Name : String
  Shorthand : String
  Changed : Bool
  Annotations : String → Option (List String)

/-- Modelled from the spec: `cobra.Command` belongs to the host library, not to
this repository.  This is the part `rpflag.go` reads or writes: the flags of
the command in their stable enumeration order and the command's own metadata
map. -/
structure Command where
  flags : List Flag
  Annotations : String → Option String

/-- The empty (or `nil`) annotation map of a flag. -/
def noAnnotations : String → Option (List String) := fun _ => none

/-- Lookup of a flag by name in a flag list: the first flag with that name. -/
def lookupFlag (name : String) : List Flag → Option Flag
  | [] => none
  | f :: fs => if f.Name = name then some f else lookupFlag name fs

/-- Modelled from the spec: the host's lookup `cmd.Flag(name)`, which gives the
flag of that name or determines that it does not exist (`none` for `nil`). -/
def Command.lookup (cmd : Command) (name : String) : Option Flag :=
  lookupFlag name cmd.flags

/-- Modelled from the spec: the host's `cmd.Flags().VisitAll`, which enumerates
all flags of the command in their stable order. -/
def Command.VisitAll (cmd : Command) : List Flag :=
  cmd.flags

/-- Modelled from the spec: the host's `cmd.Flags().Visit`, which enumerates
only the flags that were set (a subset of the above, same relative order). -/
def Command.Visit (cmd : Command) : List Flag :=
  cmd.flags.filter (fun f => f.Changed)

/-- Mutation through the pointer returned by `cmd.Flag(name)`: the flag the
lookup finds is replaced by `g` of it, every other flag is left as it is. -/
def modifyFlag (name : String) (g : Flag → Flag) : List Flag → List Flag
  | [] => []
  | f :: fs => if f.Name = name then g f :: fs else f :: modifyFlag name g fs

/-- The read `flag.Annotations[key]`: the stored slice, `nil` when absent. -/
def Flag.payload (f : Flag) (key : String) : List String :=
  (f.Annotations key).getD []

/-- The write `f.Annotations[key] = v` on a flag. -/
def Flag.setEntry (f : Flag) (key : String) (v : List String) : Flag :=
  { f with Annotations := fun k => if k = key then some v else f.Annotations k }

/-- The update `f.Annotations[key] = append(f.Annotations[key], xs...)`. -/
def Flag.attach (f : Flag) (key : String) (xs : List String) : Flag :=
  f.setEntry key (f.payload key ++ xs)

/-! ## Registration -/

/-- The slice `xs` built in `Conflicts` and `Depends`: `flags[:i]` followed by
`flags[i+1:]`. -/
def others (flags : List String) (i : Nat) : List String :=
  flags.take i ++ flags.drop (i + 1)

/-- The body of the loop of `Conflicts` and `Depends` at position `i`, for
the annotation key `key`. -/
def relateStep (key : String) (flags : List String) (cmd : Command) (i : Nat) : Command :=
  match cmd.lookup (flags.getD i "") with
  | some f =>
    { cmd with
      flags := modifyFlag f.Name (fun f => f.attach key (others flags i)) cmd.flags }
  | none => cmd

/-- The function `Conflicts(cmd, flags...)`. -/
def Conflicts (cmd : Command) (flags : List String) : Command :=
  (List.range flags.length).foldl (relateStep kConflicts flags) cmd

/-- The function `Depends(cmd, flags...)`. -/
def Depends (cmd : Command) (flags : List String) : Command :=
  (List.range flags.length).foldl (relateStep kDepends flags) cmd

/-- The function `OneAtLeast(cmd)`: the command's annotations are replaced by
a fresh map that holds the one key. -/
def OneAtLeast (cmd : Command) : Command :=
  { cmd with Annotations := fun k => if k = kOneAtLeast then some "" else none }

/-- The body of the loop of `Mandatory` at position `i`. -/
def mandatoryStep (flags : List String) (cmd : Command) (i : Nat) : Command :=
  match cmd.lookup (flags.getD i "") with
  | some f =>
    { cmd with
      flags := modifyFlag f.Name (fun f => f.setEntry kMandatory []) cmd.flags }
  | none => cmd

/-- The function `Mandatory(cmd, flags...)`. -/
def Mandatory (cmd : Command) (flags : List String) : Command :=
  (List.range flags.length).foldl (mandatoryStep flags) cmd

/-! ## Error messages -/

/-- The text `"-%s, --%s"` (with its double quotes) for a flag. -/
def quoted (short name : String) : String :=
  "\"-" ++ short ++ ", --" ++ name ++ "\""

/-- The message of `resolveConflicts`. -/
def conflictsMsg (flag other : Flag) : String :=
  quoted flag.Shorthand flag.Name ++ " conflicts with " ++ quoted other.Shorthand other.Name

/-- The message of `resolveDepends`. -/
def dependsMsg (flag other : Flag) : String :=
  quoted flag.Shorthand flag.Name ++ " depends on " ++ quoted other.Shorthand other.Name

/-- The message of `resolveMandatory`. -/
def mandatoryMsg (flag : Flag) : String :=
  "mandatory flag " ++ quoted flag.Shorthand flag.Name ++ " not specified"

/-- The message of `resolveOneAtLeast`, from the collected entries. -/
def oneAtLeastMsg (flags : List String) : String :=
  "one or more flags required: " ++ ", ".intercalate flags

/-! ## Resolution -/

/-- The loop over `flag.Annotations[kConflicts]` inside the callback of
`resolveConflicts`; `err` is the captured result. -/
def conflictsLoop (cmd : Command) (flag : Flag) : List String → Option String → Option String
  | [], err => err
  | n :: ns, err =>
    match cmd.lookup n with
    | some other =>
      if other.Changed then some (conflictsMsg flag other)
      else conflictsLoop cmd flag ns err
    | none => conflictsLoop cmd flag ns err

/-- The function `resolveConflicts`. -/
def resolveConflicts (cmd : Command) : Option String :=
  cmd.Visit.foldl (fun err flag => conflictsLoop cmd flag (flag.payload kConflicts) err) none

/-- The loop over `flag.Annotations[kDepends]` inside the callback of
`resolveDepends`; `err` is the captured result. -/
def dependsLoop (cmd : Command) (flag : Flag) : List String → Option String → Option String
  | [], err => err
  | n :: ns, err =>
    match cmd.lookup n with
    | some other =>
      if !other.Changed then some (dependsMsg flag other)
      else dependsLoop cmd flag ns err
    | none => dependsLoop cmd flag ns err

/-- The function `resolveDepends`. -/
def resolveDepends (cmd : Command) : Option String :=
  cmd.Visit.foldl (fun err flag => dependsLoop cmd flag (flag.payload kDepends) err) none

/-- The function `resolveOneAtLeast`. -/
def resolveOneAtLeast (cmd : Command) : Option String :=
  if (cmd.Annotations kOneAtLeast).isSome then
    let flags := cmd.VisitAll.foldl
      (fun acc flag => acc ++ [quoted flag.Shorthand flag.Name]) []
    let err := some (oneAtLeastMsg flags)
    cmd.Visit.foldl (fun _ _ => none) err
  else none

/-- The function `resolveMandatory`. -/
def resolveMandatory (cmd : Command) : Option String :=
  cmd.VisitAll.foldl
    (fun err flag =>
      if (flag.Annotations kMandatory).isSome && !flag.Changed then some (mandatoryMsg flag)
      else err)
    none

/-- The function `Resolve`. -/
def Resolve (cmd : Command) : Option String :=
  match resolveMandatory cmd with
  | some err => some err
  | none =>
    match resolveOneAtLeast cmd with
    | some err => some err
    | none =>
      match resolveConflicts cmd with
      | some err => some err
      | none =>
        match resolveDepends cmd with
        | some err => some err
        | none => none

/-! ## Sequences of registration calls -/

/-- One call of a registration function, with its arguments. -/
inductive Call where
  | conflicts (names : List String)
  | depends (names : List String)
  | mandatory (names : List String)
  | oneAtLeast

/-- The command after one registration call. -/
def applyCall (cmd : Command) : Call → Command
  | Call.conflicts names => Conflicts cmd names
  | Call.depends names => Depends cmd names
  | Call.mandatory names => Mandatory cmd names
  | Call.oneAtLeast => OneAtLeast cmd

/-- The command after a sequence of registration calls, first call first. -/
def applyCalls (cmd : Command) (calls : List Call) : Command :=
  calls.foldl applyCall cmd

/-! ## Concrete commands used as examples -/

/-- A flag with empty metadata. -/
def mkFlag (name short : String) (changed : Bool) : Flag :=
  { Name := name, Shorthand := short, Changed := changed, Annotations := noAnnotations }

/-- A command over the given flags with empty metadata. -/
def mkCommand (flags : List Flag) : Command :=
  { flags := flags, Annotations := fun _ => none }


/-- Flags `a`, `b` (both set) and `force` (not set): `a` and `b` are declared
in conflict and `force` is declared mandatory. -/
def cmdForce : Command :=
  Mandatory
    (Conflicts
      (mkCommand [mkFlag "a" "x" true, mkFlag "b" "y" true, mkFlag "force" "f" false])
      ["a", "b"])
    ["force"]

/-- The flag `force` of `cmdForce`, as registration leaves it. -/
def forceFlag : Flag :=
  (mkFlag "force" "f" false).setEntry kMandatory []

/-- Flags `a`, `b`, `c` with the given Changed bits, no constraint. -/
def cmdABC (a b c : Bool) : Command :=
  mkCommand [mkFlag "a" "x" a, mkFlag "b" "y" b, mkFlag "c" "z" c]

/-- Flags `output` (set) and `format` (not set), no constraint. -/
def cmdOutputFormat : Command :=
  mkCommand [mkFlag "output" "o" true, mkFlag "format" "f" false]

/-- Flags `force` and `dry-run`, none set; `force` is declared mandatory. -/
def cmdForceDryRun : Command :=
  Mandatory (mkCommand [mkFlag "force" "f" false, mkFlag "dry-run" "n" false]) ["force"]

/-- Flags `verbose` and `quiet`, enumerated in this order, both set, with the
given short names, no constraint. -/
def cmdVerboseQuiet (sv sq : String) : Command :=
  mkCommand [mkFlag "verbose" sv true, mkFlag "quiet" sq true]

/-- Flags `quiet` and `verbose`, enumerated in this order, both set, with the
given short names, no constraint. -/
def cmdQuietVerbose (sv sq : String) : Command :=
  mkCommand [mkFlag "quiet" sq true, mkFlag "verbose" sv true]

/-- A command with one flag whose own metadata already holds the key `group`. -/
def cmdGroup : Command :=
  { flags := [mkFlag "a" "x" false],
    Annotations := fun k => if k = "group" then some "core" else none }

/-- Flags `a`, `b`, `c`, none set, after a sequence of registration calls with
repeated and unknown names. -/
def cmdMirror : Command :=
  applyCalls (cmdABC false false false)
    [Call.conflicts ["a", "b", "a"], Call.depends ["c", "zz", "a"], Call.mandatory ["b"],
      Call.oneAtLeast, Call.conflicts ["c", "b"]]

/-- The flag of `cmdMirror` that the name `n` resolves to. -/
def mirrorFlag (n : String) : Flag :=
  (cmdMirror.lookup n).getD (mkFlag n "" false)

/-- Flags `a` (set), `b`, `c` after registration calls whose `Conflicts` calls
have pairwise distinct names. -/
def cmdDistinct : Command :=
  applyCalls (cmdABC true false false)
    [Call.conflicts ["a", "b"], Call.mandatory ["a"], Call.conflicts ["c", "a"]]

/-- The flag of `cmdDistinct` that the name `n` resolves to. -/
def distinctFlag (n : String) : Flag :=
  (cmdDistinct.lookup n).getD (mkFlag n "" false)

/-! ## Auxiliary definitions for the analysis of registration

These are not functions of the source: they describe what the loops of
`Conflicts`, `Depends` and `Mandatory` compute, and are proved equal to them. -/

/-- The pairs (name at position `i`, the other names) for the positions of
`post`, when `pre` holds the names before `post`. -/
def pairsFrom (pre : List String) : List String → List (String × List String)
  | [] => []
  | x :: post => (x, pre ++ post) :: pairsFrom (pre ++ [x]) post

/-- One registration step on the flag list: the flag named `u.1`, if any,
gets `u.2` appended under `key`. -/
def attachAt (key : String) (fs : List Flag) (u : String × List String) : List Flag :=
  modifyFlag u.1 (fun f => f.attach key u.2) fs

/-- All appends of `ups` applied to one flag, in order. -/
def attachAll (key : String) (f : Flag) (ups : List (String × List String)) : Flag :=
  ups.foldl (fun f u => f.attach key u.2) f

/-- The flag list after all steps of `ups`, flag by flag: the first flag of a
name receives every append addressed to that name, later flags of the same
name receive none. -/
def register (key : String) : List (String × List String) → List Flag → List Flag
  | _, [] => []
  | ups, f :: fs =>
    attachAll key f (ups.filter (fun u => u.1 = f.Name)) ::
      register key (ups.filter (fun u => u.1 ≠ f.Name)) fs

/-- One step of `Mandatory` on the flag list. -/
def markAt (fs : List Flag) (name : String) : List Flag :=
  modifyFlag name (fun f => f.setEntry kMandatory []) fs

/-- The test of the loop of `resolveConflicts` on a name. -/
def hitsConflict (cmd : Command) (n : String) : Bool :=
  match cmd.lookup n with
  | some other => other.Changed
  | none => false

/-- The test of the loop of `resolveDepends` on a name. -/
def hitsDepends (cmd : Command) (n : String) : Bool :=
  match cmd.lookup n with
  | some other => !other.Changed
  | none => false

/-- No constraint has been registered on the command: no flag has a conflicts,
depends or mandatory entry and the command has no oneatleast marker. -/
def Unconstrained (cmd : Command) : Prop :=
  cmd.Annotations kOneAtLeast = none ∧
    ∀ f ∈ cmd.flags, f.Annotations kConflicts = none ∧ f.Annotations kDepends = none ∧
      f.Annotations kMandatory = none

/-- Two flags that the resolver cannot tell apart: same names, same Changed
bit, same mandatory marker, and conflicts and depends payloads in which every
test that only accepts names of `known` finds the same first name. -/
def Agree (known : String → Bool) (f g : Flag) : Prop :=
  g.Name = f.Name ∧ g.Shorthand = f.Shorthand ∧ g.Changed = f.Changed ∧
    (g.Annotations kMandatory).isSome = (f.Annotations kMandatory).isSome ∧
    (∀ p : String → Bool, (∀ n, p n = true → known n = true) →
      (g.payload kConflicts).find? p = (f.payload kConflicts).find? p) ∧
    (∀ p : String → Bool, (∀ n, p n = true → known n = true) →
      (g.payload kDepends).find? p = (f.payload kDepends).find? p)

/-- The flag `g` is the flag `f` with the same payload under every key: names
and Changed bit are the same, every key reads the same list, every key other
than `key` is stored alike, and `key` is stored alike or has gone from absent
to present with an empty payload. -/
def SamePayloads (key : String) (f g : Flag) : Prop :=
  g.Name = f.Name ∧ g.Shorthand = f.Shorthand ∧ g.Changed = f.Changed ∧
    (∀ k, g.payload k = f.payload k) ∧
    (∀ k, k ≠ key → g.Annotations k = f.Annotations k) ∧
    (g.Annotations key = f.Annotations key ∨
      (f.Annotations key = none ∧ g.Annotations key = some []))

/-- What a registration call `call` does under the key `key`, in the words of
the specification.  For every command and list of names: the command's own
metadata is kept; a name that resolves to no flag still resolves to none; a
name `n` that resolves to the flag `f` resolves afterwards to a flag with the
names and Changed bit of `f`, every key other than `key` as in `f`, and under
`key` the previous payload of `f` followed, for the positions `i` of the list
that hold `n`, taken in order, by the list with position `i` removed; and the
flags keep their order, their names and Changed bit and every key other than
`key`, a flag whose name is not in the list being left as it was. -/
def RegistersPayload (key : String) (call : Command → List String → Command) : Prop :=
  ∀ (cmd : Command) (names : List String),
    (call cmd names).Annotations = cmd.Annotations ∧
    (∀ n, cmd.lookup n = none → (call cmd names).lookup n = none) ∧
    (∀ n f, cmd.lookup n = some f →
      ∃ g, (call cmd names).lookup n = some g ∧
        g.Name = f.Name ∧ g.Shorthand = f.Shorthand ∧ g.Changed = f.Changed ∧
        (∀ k, k ≠ key → g.Annotations k = f.Annotations k) ∧
        g.payload key = f.payload key ++
          ((List.range names.length).filter (fun i => names.getD i "" = n)).flatMap
            (fun i => names.eraseIdx i)) ∧
    List.Forall₂
      (fun f g => g.Name = f.Name ∧ g.Shorthand = f.Shorthand ∧ g.Changed = f.Changed ∧
        (∀ k, k ≠ key → g.Annotations k = f.Annotations k) ∧ (f.Name ∉ names → g = f))
      cmd.flags (call cmd names).flags

/-- The flag `g` is the flag `f` except possibly for what is stored under
`key`. -/
def SameExcept (key : String) (f g : Flag) : Prop :=
  g.Name = f.Name ∧ g.Shorthand = f.Shorthand ∧ g.Changed = f.Changed ∧
    ∀ k, k ≠ key → g.Annotations k = f.Annotations k

/-- The relation stored under `key` is mirrored: for two names that resolve to
flags, the second name is in the payload of the first flag exactly when the
first name is in the payload of the second flag. -/
def MirroredKey (key : String) (cmd : Command) : Prop :=
  ∀ n m f g, cmd.lookup n = some f → cmd.lookup m = some g →
    (m ∈ f.payload key ↔ n ∈ g.payload key)

/-- No flag of the command has its own name in its conflicts payload. -/
def NoSelfConflict (cmd : Command) : Prop :=
  ∀ f ∈ cmd.flags, f.Name ∉ f.payload kConflicts

/-! ## Folds whose accumulator is the captured error -/

theorem foldl_err_eq_none_iff {α : Type} (P : α → Prop)
    (step : Option String → α → Option String)
    (hstep : ∀ err x, step err x = none ↔ err = none ∧ P x)
    (l : List α) (init : Option String) :
    l.foldl step init = none ↔ init = none ∧ ∀ x ∈ l, P x := by
  induction l generalizing init with
  | nil => simp
  | cons x xs ih =>
    rw [List.foldl_cons, ih, hstep]
    simp only [List.mem_cons, forall_eq_or_imp]
    tauto

theorem foldl_err_eq_some {α : Type} (Q : α → String → Prop)
    (step : Option String → α → Option String)
    (hstep : ∀ err x e, step err x = some e → err = some e ∨ Q x e)
    (l : List α) (init : Option String) (e : String)
    (h : l.foldl step init = some e) :
    init = some e ∨ ∃ x ∈ l, Q x e := by
  induction l generalizing init with
  | nil => left; simpa using h
  | cons x xs ih =>
    rw [List.foldl_cons] at h
    rcases ih _ h with h1 | ⟨y, hy, hq⟩
    · rcases hstep _ _ _ h1 with h2 | h2
      · exact Or.inl h2
      · exact Or.inr ⟨x, List.mem_cons_self _ _, h2⟩
    · exact Or.inr ⟨y, List.mem_cons_of_mem _ hy, hq⟩

/-! ## The four checks: when they pass and what they report -/

theorem resolveMandatory_eq_none_iff (cmd : Command) :
    resolveMandatory cmd = none ↔
      ∀ f ∈ cmd.flags, (f.Annotations kMandatory).isSome = true → f.Changed = true := by
  unfold resolveMandatory Command.VisitAll
  rw [foldl_err_eq_none_iff
    (fun f : Flag => (f.Annotations kMandatory).isSome = true → f.Changed = true)]
  · simp
  · intro err x
    by_cases hc : ((x.Annotations kMandatory).isSome && !x.Changed) = true
    · rw [if_pos hc]
      simp only [Bool.and_eq_true, Bool.not_eq_true', Bool.not_eq_eq_eq_not] at hc
      simp [hc.1, hc.2]
    · rw [if_neg hc]
      simp only [iff_self_and]
      intro _
      simpa using hc

theorem resolveMandatory_eq_some (cmd : Command) (e : String)
    (h : resolveMandatory cmd = some e) :
    ∃ f ∈ cmd.flags, (f.Annotations kMandatory).isSome = true ∧ f.Changed = false ∧
      e = mandatoryMsg f := by
  unfold resolveMandatory Command.VisitAll at h
  have := foldl_err_eq_some
    (fun (f : Flag) e => (f.Annotations kMandatory).isSome = true ∧ f.Changed = false ∧
      e = mandatoryMsg f) _ ?_ _ _ _ h
  · simpa using this
  · intro err x e hx
    by_cases hc : ((x.Annotations kMandatory).isSome && !x.Changed) = true
    · rw [if_pos hc] at hx
      simp only [Bool.and_eq_true, Bool.not_eq_true', Bool.not_eq_eq_eq_not] at hc
      right
      exact ⟨hc.1, by simpa using hc.2, by simpa using hx.symm⟩
    · rw [if_neg hc] at hx
      exact Or.inl hx

theorem conflictsLoop_eq_none_iff (cmd : Command) (flag : Flag) (ns : List String)
    (err : Option String) :
    conflictsLoop cmd flag ns err = none ↔
      err = none ∧ ∀ n ∈ ns, ∀ other, cmd.lookup n = some other → other.Changed = false := by
  induction ns with
  | nil => simp [conflictsLoop]
  | cons n ns ih =>
    unfold conflictsLoop
    cases hl : cmd.lookup n with
    | none => simp [ih, hl]
    | some other =>
      cases hc : other.Changed <;> simp [ih, hl, hc]

theorem conflictsLoop_eq_some (cmd : Command) (flag : Flag) (ns : List String)
    (err : Option String) (e : String) (h : conflictsLoop cmd flag ns err = some e) :
    err = some e ∨ ∃ n ∈ ns, ∃ other, cmd.lookup n = some other ∧ other.Changed = true ∧
      e = conflictsMsg flag other := by
  induction ns with
  | nil => left; simpa [conflictsLoop] using h
  | cons n ns ih =>
    unfold conflictsLoop at h
    cases hl : cmd.lookup n with
    | none =>
      rw [hl] at h
      rcases ih h with h1 | ⟨m, hm, o, ho⟩
      · exact Or.inl h1
      · exact Or.inr ⟨m, List.mem_cons_of_mem _ hm, o, ho⟩
    | some other =>
      rw [hl] at h
      cases hc : other.Changed with
      | true =>
        simp only [hc, if_true, Option.some.injEq] at h
        exact Or.inr ⟨n, List.mem_cons_self _ _, other, hl, hc, h.symm⟩
      | false =>
        simp only [hc, Bool.false_eq_true, if_false] at h
        rcases ih h with h1 | ⟨m, hm, o, ho⟩
        · exact Or.inl h1
        · exact Or.inr ⟨m, List.mem_cons_of_mem _ hm, o, ho⟩

theorem dependsLoop_eq_none_iff (cmd : Command) (flag : Flag) (ns : List String)
    (err : Option String) :
    dependsLoop cmd flag ns err = none ↔
      err = none ∧ ∀ n ∈ ns, ∀ other, cmd.lookup n = some other → other.Changed = true := by
  induction ns with
  | nil => simp [dependsLoop]
  | cons n ns ih =>
    unfold dependsLoop
    cases hl : cmd.lookup n with
    | none => simp [ih, hl]
    | some other =>
      cases hc : other.Changed <;> simp [ih, hl, hc]

theorem dependsLoop_eq_some (cmd : Command) (flag : Flag) (ns : List String)
    (err : Option String) (e : String) (h : dependsLoop cmd flag ns err = some e) :
    err = some e ∨ ∃ n ∈ ns, ∃ other, cmd.lookup n = some other ∧ other.Changed = false ∧
      e = dependsMsg flag other := by
  induction ns with
  | nil => left; simpa [dependsLoop] using h
  | cons n ns ih =>
    unfold dependsLoop at h
    cases hl : cmd.lookup n with
    | none =>
      rw [hl] at h
      rcases ih h with h1 | ⟨m, hm, o, ho⟩
      · exact Or.inl h1
      · exact Or.inr ⟨m, List.mem_cons_of_mem _ hm, o, ho⟩
    | some other =>
      rw [hl] at h
      cases hc : other.Changed with
      | false =>
        simp only [hc, Bool.not_false, if_true, Option.some.injEq] at h
        exact Or.inr ⟨n, List.mem_cons_self _ _, other, hl, hc, h.symm⟩
      | true =>
        simp only [hc, Bool.not_true, Bool.false_eq_true, if_false] at h
        rcases ih h with h1 | ⟨m, hm, o, ho⟩
        · exact Or.inl h1
        · exact Or.inr ⟨m, List.mem_cons_of_mem _ hm, o, ho⟩

theorem resolveConflicts_eq_none_iff (cmd : Command) :
    resolveConflicts cmd = none ↔
      ∀ f ∈ cmd.flags, f.Changed = true → ∀ n ∈ f.payload kConflicts,
        ∀ other, cmd.lookup n = some other → other.Changed = false := by
  unfold resolveConflicts Command.Visit
  rw [foldl_err_eq_none_iff
    (fun f : Flag => ∀ n ∈ f.payload kConflicts,
      ∀ other, cmd.lookup n = some other → other.Changed = false)]
  · simp only [List.mem_filter, true_and, and_imp]
  · intro err x
    exact conflictsLoop_eq_none_iff cmd x _ err

theorem resolveConflicts_eq_some (cmd : Command) (e : String)
    (h : resolveConflicts cmd = some e) :
    ∃ f ∈ cmd.flags, f.Changed = true ∧ ∃ n ∈ f.payload kConflicts, ∃ other,
      cmd.lookup n = some other ∧ other.Changed = true ∧ e = conflictsMsg f other := by
  unfold resolveConflicts Command.Visit at h
  have := foldl_err_eq_some
    (fun (f : Flag) e => ∃ n ∈ f.payload kConflicts, ∃ other,
      cmd.lookup n = some other ∧ other.Changed = true ∧ e = conflictsMsg f other)
    _ (fun err x e hx => conflictsLoop_eq_some cmd x _ err e hx) _ _ _ h
  rcases this with h0 | ⟨f, hf, hq⟩
  · cases h0
  · rw [List.mem_filter] at hf
    exact ⟨f, hf.1, hf.2, hq⟩

theorem resolveDepends_eq_none_iff (cmd : Command) :
    resolveDepends cmd = none ↔
      ∀ f ∈ cmd.flags, f.Changed = true → ∀ n ∈ f.payload kDepends,
        ∀ other, cmd.lookup n = some other → other.Changed = true := by
  unfold resolveDepends Command.Visit
  rw [foldl_err_eq_none_iff
    (fun f : Flag => ∀ n ∈ f.payload kDepends,
      ∀ other, cmd.lookup n = some other → other.Changed = true)]
  · simp only [List.mem_filter, true_and, and_imp]
  · intro err x
    exact dependsLoop_eq_none_iff cmd x _ err

theorem resolveDepends_eq_some (cmd : Command) (e : String)
    (h : resolveDepends cmd = some e) :
    ∃ f ∈ cmd.flags, f.Changed = true ∧ ∃ n ∈ f.payload kDepends, ∃ other,
      cmd.lookup n = some other ∧ other.Changed = false ∧ e = dependsMsg f other := by
  unfold resolveDepends Command.Visit at h
  have := foldl_err_eq_some
    (fun (f : Flag) e => ∃ n ∈ f.payload kDepends, ∃ other,
      cmd.lookup n = some other ∧ other.Changed = false ∧ e = dependsMsg f other)
    _ (fun err x e hx => dependsLoop_eq_some cmd x _ err e hx) _ _ _ h
  rcases this with h0 | ⟨f, hf, hq⟩
  · cases h0
  · rw [List.mem_filter] at hf
    exact ⟨f, hf.1, hf.2, hq⟩

theorem foldl_reset (l : List Flag) (err : Option String) (hl : l ≠ []) :
    l.foldl (fun (_ : Option String) (_ : Flag) => (none : Option String)) err = none := by
  cases l with
  | nil => exact absurd rfl hl
  | cons x xs =>
    rw [List.foldl_cons]
    clear hl
    induction xs with
    | nil => rfl
    | cons y ys ih => rw [List.foldl_cons]; exact ih

theorem resolveOneAtLeast_eq_none_iff (cmd : Command) :
    resolveOneAtLeast cmd = none ↔
      ((cmd.Annotations kOneAtLeast).isSome = true → ∃ f ∈ cmd.flags, f.Changed = true) := by
  unfold resolveOneAtLeast Command.Visit
  by_cases hm : (cmd.Annotations kOneAtLeast).isSome = true
  · simp only [hm, if_true, forall_const]
    by_cases hv : cmd.flags.filter (fun f => f.Changed) = []
    · rw [hv]
      simp only [List.foldl_nil, reduceCtorEq, false_iff, not_exists, not_and]
      intro f hf hc
      have : f ∈ cmd.flags.filter (fun f => f.Changed) := List.mem_filter.mpr ⟨hf, hc⟩
      rw [hv] at this
      cases this
    · rw [foldl_reset _ _ hv]
      simp only [true_iff]
      obtain ⟨f, hf⟩ := List.exists_mem_of_ne_nil _ hv
      rw [List.mem_filter] at hf
      exact ⟨f, hf.1, hf.2⟩
  · simp [hm]

theorem resolveOneAtLeast_eq_some (cmd : Command) (e : String)
    (h : resolveOneAtLeast cmd = some e) :
    e = oneAtLeastMsg (cmd.flags.foldl
      (fun acc flag => acc ++ [quoted flag.Shorthand flag.Name]) []) := by
  unfold resolveOneAtLeast Command.Visit Command.VisitAll at h
  by_cases hm : (cmd.Annotations kOneAtLeast).isSome = true
  · simp only [hm, if_true] at h
    by_cases hv : cmd.flags.filter (fun f => f.Changed) = []
    · rw [hv] at h
      exact (Option.some.inj h).symm
    · rw [foldl_reset _ _ hv] at h
      cases h
  · simp [hm] at h

/-! ## The resolver as a whole -/

theorem Resolve_eq_none_iff (cmd : Command) :
    Resolve cmd = none ↔
      resolveMandatory cmd = none ∧ resolveOneAtLeast cmd = none ∧
        resolveConflicts cmd = none ∧ resolveDepends cmd = none := by
  unfold Resolve
  cases resolveMandatory cmd <;> cases resolveOneAtLeast cmd <;>
    cases resolveConflicts cmd <;> cases resolveDepends cmd <;> simp

theorem Resolve_of_mandatory (cmd : Command) (e : String)
    (h : resolveMandatory cmd = some e) : Resolve cmd = some e := by
  unfold Resolve
  rw [h]

theorem Resolve_eq_some (cmd : Command) (e : String) (h : Resolve cmd = some e) :
    resolveMandatory cmd = some e ∨
      (resolveMandatory cmd = none ∧ resolveOneAtLeast cmd = some e) ∨
      (resolveMandatory cmd = none ∧ resolveOneAtLeast cmd = none ∧
        resolveConflicts cmd = some e) ∨
      (resolveMandatory cmd = none ∧ resolveOneAtLeast cmd = none ∧
        resolveConflicts cmd = none ∧ resolveDepends cmd = some e) := by
  unfold Resolve at h
  cases h1 : resolveMandatory cmd <;> cases h2 : resolveOneAtLeast cmd <;>
    cases h3 : resolveConflicts cmd <;> cases h4 : resolveDepends cmd <;>
    simp_all

theorem Resolve_success_iff (cmd : Command) :
    Resolve cmd = none ↔
      (∀ f ∈ cmd.flags, (f.Annotations kMandatory).isSome = true → f.Changed = true) ∧
      ((cmd.Annotations kOneAtLeast).isSome = true → ∃ f ∈ cmd.flags, f.Changed = true) ∧
      (∀ f ∈ cmd.flags, f.Changed = true → ∀ n ∈ f.payload kConflicts,
        ∀ other, cmd.lookup n = some other → other.Changed = false) ∧
      (∀ f ∈ cmd.flags, f.Changed = true → ∀ n ∈ f.payload kDepends,
        ∀ other, cmd.lookup n = some other → other.Changed = true) := by
  rw [Resolve_eq_none_iff, resolveMandatory_eq_none_iff, resolveOneAtLeast_eq_none_iff,
    resolveConflicts_eq_none_iff, resolveDepends_eq_none_iff]

/-! ## The shape of the messages -/

theorem quoted_data (short name : String) :
    (quoted short name).data = '"' :: '-' :: (short.data ++ (", --".data ++ (name.data ++ ['"']))) := by
  simp [quoted, String.data_append]

theorem mandatoryMsg_head (f : Flag) : (mandatoryMsg f).data.head? = some 'm' := by
  simp [mandatoryMsg, String.data_append]

theorem conflictsMsg_head (f g : Flag) : (conflictsMsg f g).data.head? = some '"' := by
  simp [conflictsMsg, String.data_append, quoted_data]

theorem dependsMsg_head (f g : Flag) : (dependsMsg f g).data.head? = some '"' := by
  simp [dependsMsg, String.data_append, quoted_data]

theorem oneAtLeast_head (s : String) :
    ("one or more flags required: " ++ s).data.head? = some 'o' := by
  simp [String.data_append]

/-! ## Lookup and mutation of flags -/

theorem lookupFlag_some (n : String) (fs : List Flag) (f : Flag)
    (h : lookupFlag n fs = some f) : f.Name = n ∧ f ∈ fs := by
  induction fs with
  | nil => simp [lookupFlag] at h
  | cons g gs ih =>
    unfold lookupFlag at h
    by_cases hg : g.Name = n
    · rw [if_pos hg] at h
      cases h
      exact ⟨hg, List.mem_cons_self _ _⟩
    · rw [if_neg hg] at h
      exact ⟨(ih h).1, List.mem_cons_of_mem _ (ih h).2⟩

theorem lookupFlag_isSome_of_mem (fs : List Flag) (f : Flag) (h : f ∈ fs) :
    (lookupFlag f.Name fs).isSome = true := by
  induction fs with
  | nil => cases h
  | cons g gs ih =>
    unfold lookupFlag
    by_cases hg : g.Name = f.Name
    · simp [hg]
    · rw [if_neg hg]
      rcases List.mem_cons.mp h with h1 | h1
      · exact absurd (by rw [h1]) hg
      · exact ih h1

theorem modifyFlag_of_lookup_none (n : String) (g : Flag → Flag) (fs : List Flag)
    (h : lookupFlag n fs = none) : modifyFlag n g fs = fs := by
  induction fs with
  | nil => rfl
  | cons f fs ih =>
    unfold lookupFlag at h
    unfold modifyFlag
    by_cases hf : f.Name = n
    · simp [hf] at h
    · rw [if_neg hf] at h
      rw [if_neg hf, ih h]

/-! ## The loops of the registration functions -/

theorem getD_append_length (pre post : List String) (x d : String) :
    (pre ++ x :: post).getD pre.length d = x := by
  induction pre with
  | nil => rfl
  | cons y ys ih => simpa using ih

theorem others_append (pre post : List String) (x : String) :
    others (pre ++ x :: post) pre.length = pre ++ post := by
  unfold others
  induction pre with
  | nil => simp
  | cons y ys ih => simp

theorem relateStep_eq (key : String) (pre post : List String) (x : String) (cmd : Command) :
    relateStep key (pre ++ x :: post) cmd pre.length =
      { cmd with flags := attachAt key cmd.flags (x, pre ++ post) } := by
  unfold relateStep attachAt
  rw [getD_append_length, others_append]
  cases h : cmd.lookup x with
  | none =>
    simp only
    rw [modifyFlag_of_lookup_none _ _ _ h]
  | some f =>
    simp only
    rw [(lookupFlag_some _ _ _ h).1]

theorem relate_range (key : String) (pre post : List String) (cmd : Command) :
    (List.range' pre.length post.length).foldl (relateStep key (pre ++ post)) cmd =
      { cmd with flags := (pairsFrom pre post).foldl (attachAt key) cmd.flags } := by
  induction post generalizing pre cmd with
  | nil => rfl
  | cons x post ih =>
    simp only [List.length_cons, List.range', List.foldl_cons, pairsFrom]
    rw [relateStep_eq]
    have := ih (pre ++ [x]) { cmd with flags := attachAt key cmd.flags (x, pre ++ post) }
    simp only [List.length_append, List.length_singleton, List.append_assoc,
      List.singleton_append] at this
    rw [this]

theorem Conflicts_eq (cmd : Command) (names : List String) :
    Conflicts cmd names =
      { cmd with flags := (pairsFrom [] names).foldl (attachAt kConflicts) cmd.flags } := by
  unfold Conflicts
  rw [List.range_eq_range']
  exact relate_range kConflicts [] names cmd

theorem Depends_eq (cmd : Command) (names : List String) :
    Depends cmd names =
      { cmd with flags := (pairsFrom [] names).foldl (attachAt kDepends) cmd.flags } := by
  unfold Depends
  rw [List.range_eq_range']
  exact relate_range kDepends [] names cmd

theorem mandatoryStep_eq (pre post : List String) (x : String) (cmd : Command) :
    mandatoryStep (pre ++ x :: post) cmd pre.length =
      { cmd with flags := markAt cmd.flags x } := by
  unfold mandatoryStep markAt
  rw [getD_append_length]
  cases h : cmd.lookup x with
  | none =>
    simp only
    rw [modifyFlag_of_lookup_none _ _ _ h]
  | some f =>
    simp only
    rw [(lookupFlag_some _ _ _ h).1]

theorem mandatory_range (pre post : List String) (cmd : Command) :
    (List.range' pre.length post.length).foldl (mandatoryStep (pre ++ post)) cmd =
      { cmd with flags := post.foldl markAt cmd.flags } := by
  induction post generalizing pre cmd with
  | nil => rfl
  | cons x post ih =>
    simp only [List.length_cons, List.range', List.foldl_cons]
    rw [mandatoryStep_eq]
    have := ih (pre ++ [x]) { cmd with flags := markAt cmd.flags x }
    simp only [List.length_append, List.length_singleton, List.append_assoc,
      List.singleton_append] at this
    rw [this]

theorem Mandatory_eq (cmd : Command) (names : List String) :
    Mandatory cmd names = { cmd with flags := names.foldl markAt cmd.flags } := by
  unfold Mandatory
  rw [List.range_eq_range']
  exact mandatory_range [] names cmd

/-! ## What an append does to one flag -/

@[simp] theorem attach_Name (f : Flag) (key : String) (xs : List String) :
    (f.attach key xs).Name = f.Name := rfl

@[simp] theorem attach_Shorthand (f : Flag) (key : String) (xs : List String) :
    (f.attach key xs).Shorthand = f.Shorthand := rfl

@[simp] theorem attach_Changed (f : Flag) (key : String) (xs : List String) :
    (f.attach key xs).Changed = f.Changed := rfl

theorem attach_Annotations_ne (f : Flag) (key k : String) (xs : List String) (h : k ≠ key) :
    (f.attach key xs).Annotations k = f.Annotations k := by
  simp [Flag.attach, Flag.setEntry, h]

theorem attach_payload (f : Flag) (key : String) (xs : List String) :
    (f.attach key xs).payload key = f.payload key ++ xs := by
  simp [Flag.attach, Flag.setEntry, Flag.payload]

@[simp] theorem attachAll_nil (key : String) (f : Flag) : attachAll key f [] = f := rfl

theorem attachAll_cons (key : String) (f : Flag) (u : String × List String)
    (us : List (String × List String)) :
    attachAll key f (u :: us) = attachAll key (f.attach key u.2) us := rfl

@[simp] theorem attachAll_Name (key : String) (f : Flag) (ups : List (String × List String)) :
    (attachAll key f ups).Name = f.Name := by
  induction ups generalizing f with
  | nil => rfl
  | cons u us ih => rw [attachAll_cons, ih, attach_Name]

@[simp] theorem attachAll_Shorthand (key : String) (f : Flag)
    (ups : List (String × List String)) :
    (attachAll key f ups).Shorthand = f.Shorthand := by
  induction ups generalizing f with
  | nil => rfl
  | cons u us ih => rw [attachAll_cons, ih, attach_Shorthand]

@[simp] theorem attachAll_Changed (key : String) (f : Flag)
    (ups : List (String × List String)) :
    (attachAll key f ups).Changed = f.Changed := by
  induction ups generalizing f with
  | nil => rfl
  | cons u us ih => rw [attachAll_cons, ih, attach_Changed]

theorem attachAll_Annotations_ne (key k : String) (f : Flag)
    (ups : List (String × List String)) (h : k ≠ key) :
    (attachAll key f ups).Annotations k = f.Annotations k := by
  induction ups generalizing f with
  | nil => rfl
  | cons u us ih => rw [attachAll_cons, ih, attach_Annotations_ne _ _ _ _ h]

theorem attachAll_payload_ne (key k : String) (f : Flag)
    (ups : List (String × List String)) (h : k ≠ key) :
    (attachAll key f ups).payload k = f.payload k := by
  unfold Flag.payload
  rw [attachAll_Annotations_ne _ _ _ _ h]

theorem attachAll_payload (key : String) (f : Flag) (ups : List (String × List String)) :
    (attachAll key f ups).payload key = f.payload key ++ ups.flatMap (fun u => u.2) := by
  induction ups generalizing f with
  | nil => simp
  | cons u us ih =>
    rw [attachAll_cons, ih, attach_payload, List.flatMap_cons, List.append_assoc]

/-! ## The registration loop, flag by flag -/

theorem foldl_attachAt_nil (key : String) (ups : List (String × List String)) :
    ups.foldl (attachAt key) [] = [] := by
  induction ups with
  | nil => rfl
  | cons u us ih => simpa [attachAt, modifyFlag] using ih

theorem foldl_attachAt_cons (key : String) (ups : List (String × List String))
    (f : Flag) (fs : List Flag) :
    ups.foldl (attachAt key) (f :: fs) =
      attachAll key f (ups.filter (fun u => u.1 = f.Name)) ::
        (ups.filter (fun u => u.1 ≠ f.Name)).foldl (attachAt key) fs := by
  induction ups generalizing f fs with
  | nil => rfl
  | cons u us ih =>
    rw [List.foldl_cons]
    by_cases hu : f.Name = u.1
    · have h1 : attachAt key (f :: fs) u = f.attach key u.2 :: fs := by
        simp [attachAt, modifyFlag, hu]
      rw [h1, ih]
      simp [hu, attachAll_cons]
    · have h1 : attachAt key (f :: fs) u = f :: attachAt key fs u := by
        simp [attachAt, modifyFlag, hu]
      have hu2 : ¬ u.1 = f.Name := fun h => hu h.symm
      rw [h1, ih]
      simp [hu2]

theorem foldl_attachAt_eq_register (key : String) (ups : List (String × List String))
    (fs : List Flag) : ups.foldl (attachAt key) fs = register key ups fs := by
  induction fs generalizing ups with
  | nil => rw [foldl_attachAt_nil]; rfl
  | cons f fs ih =>
    rw [foldl_attachAt_cons, ih]
    rfl

theorem Conflicts_flags (cmd : Command) (names : List String) :
    (Conflicts cmd names).flags = register kConflicts (pairsFrom [] names) cmd.flags := by
  rw [Conflicts_eq, ← foldl_attachAt_eq_register]

theorem Conflicts_Annotations (cmd : Command) (names : List String) :
    (Conflicts cmd names).Annotations = cmd.Annotations := by
  rw [Conflicts_eq]

theorem Depends_flags (cmd : Command) (names : List String) :
    (Depends cmd names).flags = register kDepends (pairsFrom [] names) cmd.flags := by
  rw [Depends_eq, ← foldl_attachAt_eq_register]

theorem Depends_Annotations (cmd : Command) (names : List String) :
    (Depends cmd names).Annotations = cmd.Annotations := by
  rw [Depends_eq]

theorem filter_ne_filter_eq (ups : List (String × List String)) (a b : String)
    (h : a ≠ b) :
    (ups.filter (fun u => u.1 ≠ a)).filter (fun u => u.1 = b) =
      ups.filter (fun u => u.1 = b) := by
  rw [List.filter_filter]
  congr 1
  funext u
  by_cases hu : u.1 = b
  · have : ¬ u.1 = a := fun h1 => h (h1.symm.trans hu)
    simp [hu, this]
    exact fun h2 => h h2.symm
  · simp [hu]

theorem filter_ne_filter_self (ups : List (String × List String)) (a : String) :
    (ups.filter (fun u => u.1 ≠ a)).filter (fun u => u.1 = a) = [] := by
  rw [List.filter_filter, List.filter_eq_nil_iff]
  intro u _
  simp

theorem lookupFlag_register (key n : String) (ups : List (String × List String))
    (fs : List Flag) :
    lookupFlag n (register key ups fs) =
      (lookupFlag n fs).map (fun f => attachAll key f (ups.filter (fun u => u.1 = n))) := by
  induction fs generalizing ups with
  | nil => rfl
  | cons f fs ih =>
    unfold register lookupFlag
    by_cases hf : f.Name = n
    · simp [hf]
    · simp only [attachAll_Name, hf, if_false]
      rw [ih, filter_ne_filter_eq _ _ _ hf]

theorem mem_register (key : String) (ups : List (String × List String)) (fs : List Flag)
    (g : Flag) (hg : g ∈ register key ups fs) :
    ∃ f ∈ fs, g = f ∨ (lookupFlag f.Name fs = some f ∧
      g = attachAll key f (ups.filter (fun u => u.1 = f.Name))) := by
  induction fs generalizing ups with
  | nil => simp [register] at hg
  | cons f fs ih =>
    unfold register at hg
    rcases List.mem_cons.mp hg with h1 | h1
    · refine ⟨f, List.mem_cons_self _ _, Or.inr ⟨?_, h1⟩⟩
      simp [lookupFlag]
    · obtain ⟨f', hf', hcase⟩ := ih _ h1
      refine ⟨f', List.mem_cons_of_mem _ hf', ?_⟩
      rcases hcase with h2 | ⟨h2, h3⟩
      · exact Or.inl h2
      · by_cases hn : f.Name = f'.Name
        · left
          rw [h3, ← hn, filter_ne_filter_self]
          rfl
        · right
          refine ⟨?_, by rw [h3, filter_ne_filter_eq _ _ _ hn]⟩
          unfold lookupFlag
          rw [if_neg hn]
          exact h2

/-! ## The pairs a registration call works through -/

theorem mem_pairsFrom (pre post : List String) (u : String × List String)
    (h : u ∈ pairsFrom pre post) :
    ∃ p1 p2, post = p1 ++ u.1 :: p2 ∧ u.2 = pre ++ (p1 ++ p2) := by
  induction post generalizing pre with
  | nil => simp [pairsFrom] at h
  | cons x post ih =>
    unfold pairsFrom at h
    rcases List.mem_cons.mp h with h1 | h1
    · refine ⟨[], post, ?_, ?_⟩ <;> simp [h1]
    · obtain ⟨p1, p2, hp, hu⟩ := ih _ h1
      refine ⟨x :: p1, p2, ?_, ?_⟩
      · simp [hp]
      · simp [hu]

theorem pairsFrom_mem (pre p1 p2 : List String) (x : String) :
    (x, pre ++ (p1 ++ p2)) ∈ pairsFrom pre (p1 ++ x :: p2) := by
  induction p1 generalizing pre with
  | nil => simp [pairsFrom]
  | cons y p1 ih =>
    simp only [List.cons_append, pairsFrom, List.mem_cons]
    right
    have := ih (pre ++ [y])
    simpa using this

theorem pairs_subset (names : List String) (u : String × List String)
    (h : u ∈ pairsFrom [] names) : u.1 ∈ names ∧ ∀ x ∈ u.2, x ∈ names := by
  obtain ⟨p1, p2, hp, hu⟩ := mem_pairsFrom _ _ _ h
  rw [hp, hu]
  refine ⟨by simp, ?_⟩
  intro x hx
  simp only [List.nil_append, List.mem_append] at hx
  simp only [List.mem_append, List.mem_cons]
  tauto

theorem pairs_not_self (names : List String) (hnd : names.Nodup) (u : String × List String)
    (h : u ∈ pairsFrom [] names) : u.1 ∉ u.2 := by
  obtain ⟨p1, p2, hp, hu⟩ := mem_pairsFrom _ _ _ h
  rw [hp] at hnd
  rw [hu]
  have h1 := List.nodup_append.mp hnd
  have h2 := List.nodup_cons.mp h1.2.1
  intro hx
  simp only [List.nil_append, List.mem_append] at hx
  rcases hx with hx | hx
  · exact (List.disjoint_left.mp h1.2.2 hx) (List.mem_cons_self _ _)
  · exact h2.1 hx

theorem pairs_cover (names : List String) (a : String) (ha : a ∈ names) :
    ∃ u ∈ pairsFrom [] names, u.1 = a ∧ ∀ b ∈ names, b ≠ a → b ∈ u.2 := by
  obtain ⟨p1, p2, hp⟩ := List.append_of_mem ha
  refine ⟨(a, [] ++ (p1 ++ p2)), ?_, rfl, ?_⟩
  · rw [hp]
    exact pairsFrom_mem [] p1 p2 a
  · intro b hb hba
    rw [hp] at hb
    simp only [List.mem_append, List.mem_cons] at hb
    simp only [List.nil_append, List.mem_append]
    tauto

/-! ## A registration call seen from the command -/

theorem lookup_register (key : String) (cmd : Command) (ups : List (String × List String))
    (n : String) :
    ({ cmd with flags := register key ups cmd.flags } : Command).lookup n =
      (cmd.lookup n).map (fun f => attachAll key f (ups.filter (fun u => u.1 = n))) :=
  lookupFlag_register key n ups cmd.flags

theorem mem_register_frame (key : String) (ups : List (String × List String))
    (fs : List Flag) (g : Flag) (hg : g ∈ register key ups fs) :
    ∃ f ∈ fs, g.Name = f.Name ∧ g.Shorthand = f.Shorthand ∧ g.Changed = f.Changed ∧
      (∀ k, k ≠ key → g.Annotations k = f.Annotations k) ∧
      (∀ x ∈ g.payload key, x ∈ f.payload key ∨
        (lookupFlag f.Name fs = some f ∧ ∃ u ∈ ups, u.1 = f.Name ∧ x ∈ u.2)) := by
  obtain ⟨f, hf, hcase⟩ := mem_register key ups fs g hg
  refine ⟨f, hf, ?_⟩
  rcases hcase with h | ⟨hl, h⟩
  · subst h
    exact ⟨rfl, rfl, rfl, fun _ _ => rfl, fun x hx => Or.inl hx⟩
  · subst h
    refine ⟨by simp, by simp, by simp, fun k hk => attachAll_Annotations_ne _ _ _ _ hk, ?_⟩
    intro x hx
    rw [attachAll_payload, List.mem_append, List.mem_flatMap] at hx
    rcases hx with hx | ⟨u, hu, hxu⟩
    · exact Or.inl hx
    · rw [List.mem_filter] at hu
      exact Or.inr ⟨hl, u, hu.1, by simpa using hu.2, hxu⟩

theorem kMandatory_ne_kConflicts : kMandatory ≠ kConflicts := by decide

theorem kMandatory_ne_kDepends : kMandatory ≠ kDepends := by decide

theorem kConflicts_ne_kDepends : kConflicts ≠ kDepends := by decide

theorem payload_of_none (f : Flag) (key : String) (h : f.Annotations key = none) :
    f.payload key = [] := by
  simp [Flag.payload, h]

theorem conflictsMsg_congr (f g f1 g1 : Flag) (h1 : f1.Name = f.Name)
    (h2 : f1.Shorthand = f.Shorthand) (h3 : g1.Name = g.Name)
    (h4 : g1.Shorthand = g.Shorthand) : conflictsMsg f1 g1 = conflictsMsg f g := by
  simp [conflictsMsg, h1, h2, h3, h4]

theorem dependsMsg_congr (f g f1 g1 : Flag) (h1 : f1.Name = f.Name)
    (h2 : f1.Shorthand = f.Shorthand) (h3 : g1.Name = g.Name)
    (h4 : g1.Shorthand = g.Shorthand) : dependsMsg f1 g1 = dependsMsg f g := by
  simp [dependsMsg, h1, h2, h3, h4]

theorem Conflicts_reg (cmd : Command) (names : List String) :
    Conflicts cmd names =
      { cmd with flags := register kConflicts (pairsFrom [] names) cmd.flags } := by
  rw [Conflicts_eq, foldl_attachAt_eq_register]

theorem Depends_reg (cmd : Command) (names : List String) :
    Depends cmd names =
      { cmd with flags := register kDepends (pairsFrom [] names) cmd.flags } := by
  rw [Depends_eq, foldl_attachAt_eq_register]

theorem lookup_register_some (key : String) (cmd : Command)
    (ups : List (String × List String)) (n : String) (g : Flag)
    (h : ({ cmd with flags := register key ups cmd.flags } : Command).lookup n = some g) :
    ∃ f, cmd.lookup n = some f ∧ g.Name = f.Name ∧ g.Shorthand = f.Shorthand ∧
      g.Changed = f.Changed := by
  rw [lookup_register] at h
  cases hl : cmd.lookup n with
  | none => rw [hl] at h; cases h
  | some f =>
    rw [hl] at h
    simp only [Option.map_some', Option.some.injEq] at h
    subst h
    exact ⟨f, rfl, by simp, by simp, by simp⟩

/-- On a command without constraints, a registration under `key` leaves the
mandatory and the one-at-least checks passing. -/
theorem register_passes_first_checks (key : String) (hk : kMandatory ≠ key) (cmd : Command)
    (ups : List (String × List String)) (hun : Unconstrained cmd) :
    resolveMandatory { cmd with flags := register key ups cmd.flags } = none ∧
      resolveOneAtLeast { cmd with flags := register key ups cmd.flags } = none := by
  constructor
  · rw [resolveMandatory_eq_none_iff]
    intro g hg hm
    obtain ⟨f, hf, -, -, -, hann, -⟩ := mem_register_frame key ups cmd.flags g hg
    rw [hann _ hk, (hun.2 f hf).2.2] at hm
    cases hm
  · rw [resolveOneAtLeast_eq_none_iff]
    intro hm
    rw [show ({ cmd with flags := register key ups cmd.flags } : Command).Annotations =
      cmd.Annotations from rfl, hun.1] at hm
    cases hm

/-- The errors `Resolve` can report after one `Conflicts` call on a command
without constraints. -/
theorem Resolve_Conflicts_error (cmd : Command) (names : List String)
    (hun : Unconstrained cmd) (e : String) (h : Resolve (Conflicts cmd names) = some e) :
    ∃ f o : Flag, ∃ n : String, ∃ u ∈ pairsFrom [] names,
      cmd.lookup f.Name = some f ∧ f.Changed = true ∧ u.1 = f.Name ∧ n ∈ u.2 ∧
      cmd.lookup n = some o ∧ o.Changed = true ∧ e = conflictsMsg f o := by
  rw [Conflicts_reg] at h
  obtain ⟨hM, hO⟩ := register_passes_first_checks kConflicts kMandatory_ne_kConflicts cmd
    (pairsFrom [] names) hun
  rcases Resolve_eq_some _ _ h with h1 | ⟨-, h1⟩ | ⟨-, -, h1⟩ | ⟨-, -, -, h1⟩
  · rw [hM] at h1; cases h1
  · rw [hO] at h1; cases h1
  · obtain ⟨g, hg, hgc, n, hn, other, hl, hoc, he⟩ := resolveConflicts_eq_some _ _ h1
    obtain ⟨f, hf, hN, hS, hC, -, hpay⟩ := mem_register_frame _ _ _ g hg
    obtain ⟨o, hlo, hoN, hoS, hoC⟩ := lookup_register_some _ _ _ _ _ hl
    rcases hpay n hn with hx | ⟨hfirst, u, hu, hu1, hu2⟩
    · rw [payload_of_none _ _ (hun.2 f hf).1] at hx
      cases hx
    · refine ⟨f, o, n, u, hu, hfirst, by rw [← hC]; exact hgc, hu1, hu2, hlo,
        by rw [← hoC]; exact hoc, ?_⟩
      rw [he]
      exact conflictsMsg_congr _ _ _ _ hN hS hoN hoS
  · obtain ⟨g, hg, hgc, n, hn, other, hl, hoc, he⟩ := resolveDepends_eq_some _ _ h1
    obtain ⟨f, hf, -, -, -, hann, -⟩ := mem_register_frame _ _ _ g hg
    unfold Flag.payload at hn
    rw [hann _ (Ne.symm kConflicts_ne_kDepends), (hun.2 f hf).2.1] at hn
    cases hn

/-- After `Conflicts` on a command without constraints, two distinct names of
the call whose flags are both set make `Resolve` fail. -/
theorem Resolve_Conflicts_fails (cmd : Command) (names : List String) (a b : String)
    (fa fb : Flag) (ha : a ∈ names) (hb : b ∈ names) (hab : a ≠ b)
    (hfa : cmd.lookup a = some fa) (hfb : cmd.lookup b = some fb)
    (hca : fa.Changed = true) (hcb : fb.Changed = true) :
    Resolve (Conflicts cmd names) ≠ none := by
  intro h
  rw [Resolve_success_iff] at h
  obtain ⟨-, -, hC, -⟩ := h
  rw [Conflicts_reg] at hC
  have hla := lookup_register kConflicts cmd (pairsFrom [] names) a
  have hlb := lookup_register kConflicts cmd (pairsFrom [] names) b
  rw [hfa] at hla
  rw [hfb] at hlb
  simp only [Option.map_some'] at hla hlb
  obtain ⟨u, hu, hu1, hu2⟩ := pairs_cover names a ha
  have hmem := (lookupFlag_some _ _ _ hla).2
  have := hC _ hmem (by simpa using hca) b (by
    rw [attachAll_payload, List.mem_append, List.mem_flatMap]
    right
    exact ⟨u, List.mem_filter.mpr ⟨hu, by simpa using hu1⟩, hu2 b hb (Ne.symm hab)⟩) _ hlb
  rw [attachAll_Changed, hcb] at this
  cases this

/-! ## Commands the resolver cannot tell apart -/

theorem foldl_filter_forall₂ {β : Type} (R : Flag → Flag → Prop) (p1 p2 : Flag → Bool)
    (s1 s2 : β → Flag → β) (l1 l2 : List Flag) (h : List.Forall₂ R l1 l2)
    (hp : ∀ f g, R f g → p1 f = p2 g)
    (hs : ∀ acc f g, R f g → s1 acc f = s2 acc g) (init : β) :
    (l1.filter p1).foldl s1 init = (l2.filter p2).foldl s2 init := by
  induction h generalizing init with
  | nil => rfl
  | cons hfg hrest ih =>
    rename_i f g fs gs
    rw [List.filter_cons, List.filter_cons, ← hp f g hfg]
    cases hpf : p1 f
    · simpa using ih init
    · simp only [if_true, List.foldl_cons]
      rw [hs init f g hfg]
      exact ih _

theorem foldl_forall₂ {β : Type} (R : Flag → Flag → Prop)
    (s1 s2 : β → Flag → β) (l1 l2 : List Flag) (h : List.Forall₂ R l1 l2)
    (hs : ∀ acc f g, R f g → s1 acc f = s2 acc g) (init : β) :
    l1.foldl s1 init = l2.foldl s2 init := by
  induction h generalizing init with
  | nil => rfl
  | cons hfg hrest ih =>
    rename_i f g fs gs
    rw [List.foldl_cons, List.foldl_cons, hs init f g hfg]
    exact ih _

theorem lookupFlag_forall₂ (R : Flag → Flag → Prop) (hR : ∀ f g, R f g → g.Name = f.Name)
    (l1 l2 : List Flag) (h : List.Forall₂ R l1 l2) (n : String) :
    (lookupFlag n l1 = none ∧ lookupFlag n l2 = none) ∨
      ∃ f g, lookupFlag n l1 = some f ∧ lookupFlag n l2 = some g ∧ R f g := by
  induction h with
  | nil => left; exact ⟨rfl, rfl⟩
  | cons hfg hrest ih =>
    rename_i f g fs gs
    unfold lookupFlag
    rw [hR f g hfg]
    by_cases hn : f.Name = n
    · right
      exact ⟨f, g, by simp [hn], by simp [hn], hfg⟩
    · simp only [hn, if_false]
      exact ih

theorem conflictsLoop_eq_find (cmd : Command) (flag : Flag) (ns : List String)
    (err : Option String) :
    conflictsLoop cmd flag ns err =
      match ns.find? (hitsConflict cmd) with
      | some n =>
        match cmd.lookup n with
        | some other => some (conflictsMsg flag other)
        | none => err
      | none => err := by
  induction ns with
  | nil => rfl
  | cons n ns ih =>
    unfold conflictsLoop
    rw [List.find?_cons]
    cases hl : cmd.lookup n with
    | none =>
      have : hitsConflict cmd n = false := by simp [hitsConflict, hl]
      simp only [this]
      exact ih
    | some other =>
      cases hc : other.Changed with
      | true =>
        have : hitsConflict cmd n = true := by simp [hitsConflict, hl, hc]
        simp [this, hl, hc]
      | false =>
        have : hitsConflict cmd n = false := by simp [hitsConflict, hl, hc]
        simp only [this, hc, Bool.false_eq_true, if_false]
        exact ih

theorem dependsLoop_eq_find (cmd : Command) (flag : Flag) (ns : List String)
    (err : Option String) :
    dependsLoop cmd flag ns err =
      match ns.find? (hitsDepends cmd) with
      | some n =>
        match cmd.lookup n with
        | some other => some (dependsMsg flag other)
        | none => err
      | none => err := by
  induction ns with
  | nil => rfl
  | cons n ns ih =>
    unfold dependsLoop
    rw [List.find?_cons]
    cases hl : cmd.lookup n with
    | none =>
      have : hitsDepends cmd n = false := by simp [hitsDepends, hl]
      simp only [this]
      exact ih
    | some other =>
      cases hc : other.Changed with
      | false =>
        have : hitsDepends cmd n = true := by simp [hitsDepends, hl, hc]
        simp [this, hl, hc]
      | true =>
        have : hitsDepends cmd n = false := by simp [hitsDepends, hl, hc]
        simp only [this, hc, Bool.not_true, Bool.false_eq_true, if_false]
        exact ih

theorem agree_name (known : String → Bool) (f g : Flag) (h : Agree known f g) :
    g.Name = f.Name := h.1

theorem hitsConflict_known (cmd : Command) (known : String → Bool)
    (hk : ∀ n o, cmd.lookup n = some o → known n = true) (n : String)
    (h : hitsConflict cmd n = true) : known n = true := by
  unfold hitsConflict at h
  cases hl : cmd.lookup n with
  | none => rw [hl] at h; cases h
  | some o => exact hk n o hl

theorem hitsDepends_known (cmd : Command) (known : String → Bool)
    (hk : ∀ n o, cmd.lookup n = some o → known n = true) (n : String)
    (h : hitsDepends cmd n = true) : known n = true := by
  unfold hitsDepends at h
  cases hl : cmd.lookup n with
  | none => rw [hl] at h; cases h
  | some o => exact hk n o hl

theorem hitsConflict_congr (A B : Command) (known : String → Bool)
    (h : List.Forall₂ (Agree known) A.flags B.flags) :
    hitsConflict B = hitsConflict A := by
  funext n
  unfold hitsConflict Command.lookup
  rcases lookupFlag_forall₂ _ (agree_name known) _ _ h n with ⟨h1, h2⟩ | ⟨f, g, h1, h2, hfg⟩
  · rw [h1, h2]
  · rw [h1, h2]
    exact hfg.2.2.1

theorem hitsDepends_congr (A B : Command) (known : String → Bool)
    (h : List.Forall₂ (Agree known) A.flags B.flags) :
    hitsDepends B = hitsDepends A := by
  funext n
  unfold hitsDepends Command.lookup
  rcases lookupFlag_forall₂ _ (agree_name known) _ _ h n with ⟨h1, h2⟩ | ⟨f, g, h1, h2, hfg⟩
  · rw [h1, h2]
  · rw [h1, h2]
    simp only
    rw [hfg.2.2.1]

theorem conflictsLoop_congr (A B : Command) (known : String → Bool)
    (hk : ∀ n o, A.lookup n = some o → known n = true)
    (h : List.Forall₂ (Agree known) A.flags B.flags) (f g : Flag) (hfg : Agree known f g)
    (err : Option String) :
    conflictsLoop A f (f.payload kConflicts) err =
      conflictsLoop B g (g.payload kConflicts) err := by
  rw [conflictsLoop_eq_find, conflictsLoop_eq_find, hitsConflict_congr A B known h,
    hfg.2.2.2.2.1 _ (hitsConflict_known A known hk)]
  cases (f.payload kConflicts).find? (hitsConflict A) with
  | none => rfl
  | some n =>
    simp only
    unfold Command.lookup
    rcases lookupFlag_forall₂ _ (agree_name known) _ _ h n with ⟨h1, h2⟩ | ⟨o, o1, h1, h2, ho⟩
    · rw [h1, h2]
    · rw [h1, h2]
      simp only
      rw [conflictsMsg_congr f o g o1 hfg.1 hfg.2.1 ho.1 ho.2.1]

theorem dependsLoop_congr (A B : Command) (known : String → Bool)
    (hk : ∀ n o, A.lookup n = some o → known n = true)
    (h : List.Forall₂ (Agree known) A.flags B.flags) (f g : Flag) (hfg : Agree known f g)
    (err : Option String) :
    dependsLoop A f (f.payload kDepends) err =
      dependsLoop B g (g.payload kDepends) err := by
  rw [dependsLoop_eq_find, dependsLoop_eq_find, hitsDepends_congr A B known h,
    hfg.2.2.2.2.2 _ (hitsDepends_known A known hk)]
  cases (f.payload kDepends).find? (hitsDepends A) with
  | none => rfl
  | some n =>
    simp only
    unfold Command.lookup
    rcases lookupFlag_forall₂ _ (agree_name known) _ _ h n with ⟨h1, h2⟩ | ⟨o, o1, h1, h2, ho⟩
    · rw [h1, h2]
    · rw [h1, h2]
      simp only
      rw [dependsMsg_congr f o g o1 hfg.1 hfg.2.1 ho.1 ho.2.1]

/-- The resolver gives the same result on two commands whose flags agree pair
by pair and that carry the one-at-least marker alike. -/
theorem Resolve_congr (A B : Command) (known : String → Bool)
    (hk : ∀ n o, A.lookup n = some o → known n = true)
    (hann : (B.Annotations kOneAtLeast).isSome = (A.Annotations kOneAtLeast).isSome)
    (h : List.Forall₂ (Agree known) A.flags B.flags) : Resolve A = Resolve B := by
  have hM : resolveMandatory A = resolveMandatory B := by
    unfold resolveMandatory Command.VisitAll
    apply foldl_forall₂ (Agree known) _ _ _ _ h
    intro acc f g hfg
    rw [hfg.2.2.2.1, hfg.2.2.1]
    simp [mandatoryMsg, hfg.1, hfg.2.1]
  have hO : resolveOneAtLeast A = resolveOneAtLeast B := by
    unfold resolveOneAtLeast Command.VisitAll Command.Visit
    rw [hann]
    have h1 : A.flags.foldl (fun acc flag => acc ++ [quoted flag.Shorthand flag.Name]) [] =
        B.flags.foldl (fun acc flag => acc ++ [quoted flag.Shorthand flag.Name]) [] := by
      apply foldl_forall₂ (Agree known) _ _ _ _ h
      intro acc f g hfg
      rw [hfg.1, hfg.2.1]
    rw [h1]
    by_cases hm : (A.Annotations kOneAtLeast).isSome = true
    · simp only [hm, if_true]
      apply foldl_filter_forall₂ (Agree known) _ _ _ _ _ _ h
      · intro f g hfg
        exact hfg.2.2.1.symm
      · intro acc f g hfg
        rfl
    · simp [hm]
  have hC : resolveConflicts A = resolveConflicts B := by
    unfold resolveConflicts Command.Visit
    apply foldl_filter_forall₂ (Agree known) _ _ _ _ _ _ h
    · intro f g hfg
      exact hfg.2.2.1.symm
    · intro acc f g hfg
      exact conflictsLoop_congr A B known hk h f g hfg acc
  have hD : resolveDepends A = resolveDepends B := by
    unfold resolveDepends Command.Visit
    apply foldl_filter_forall₂ (Agree known) _ _ _ _ _ _ h
    · intro f g hfg
      exact hfg.2.2.1.symm
    · intro acc f g hfg
      exact dependsLoop_congr A B known hk h f g hfg acc
  unfold Resolve
  rw [hM, hO, hC, hD]

/-! ## Comparing two registrations on the same flags -/

theorem register_forall₂ (key : String) (Q : Flag → Flag → Prop)
    (T : List (String × List String) → List (String × List String) → Prop)
    (hT : ∀ a b (q : String → Bool), T a b →
      T (a.filter (fun u => q u.1)) (b.filter (fun u => q u.1)))
    (fs : List Flag)
    (hQ : ∀ f ∈ fs, ∀ a b, T a b → (∀ u ∈ a, u.1 = f.Name) →
      Q (attachAll key f a) (attachAll key f b))
    (a b : List (String × List String)) (hab : T a b) :
    List.Forall₂ Q (register key a fs) (register key b fs) := by
  induction fs generalizing a b with
  | nil => exact List.Forall₂.nil
  | cons f fs ih =>
    unfold register
    refine List.Forall₂.cons ?_ ?_
    · apply hQ f (List.mem_cons_self _ _) _ _ (hT a b (fun n => decide (n = f.Name)) hab)
      intro u hu
      simpa using (List.mem_filter.mp hu).2
    · exact ih (fun g hg => hQ g (List.mem_cons_of_mem _ hg)) _ _
        (hT a b (fun n => decide (n ≠ f.Name)) hab)

theorem agree_attachAll (key : String) (hkey : key = kConflicts ∨ key = kDepends)
    (known : String → Bool) (f : Flag) (a b : List (String × List String))
    (hfind : ∀ p : String → Bool, (∀ n, p n = true → known n = true) →
      (b.flatMap (fun u => u.2)).find? p = (a.flatMap (fun u => u.2)).find? p) :
    Agree known (attachAll key f a) (attachAll key f b) := by
  have hm : kMandatory ≠ key := by
    rcases hkey with h | h <;> rw [h] <;> decide
  refine ⟨by simp, by simp, by simp, ?_, ?_, ?_⟩
  · rw [attachAll_Annotations_ne _ _ _ _ hm, attachAll_Annotations_ne _ _ _ _ hm]
  · intro p hp
    by_cases hc : kConflicts = key
    · subst hc
      rw [attachAll_payload, attachAll_payload, List.find?_append, List.find?_append,
        hfind p hp]
    · rw [attachAll_payload_ne _ _ _ _ hc, attachAll_payload_ne _ _ _ _ hc]
  · intro p hp
    by_cases hc : kDepends = key
    · subst hc
      rw [attachAll_payload, attachAll_payload, List.find?_append, List.find?_append,
        hfind p hp]
    · rw [attachAll_payload_ne _ _ _ _ hc, attachAll_payload_ne _ _ _ _ hc]

theorem pairsFrom_cons (pre post : List String) (x : String) :
    pairsFrom pre (x :: post) = (x, pre ++ post) :: pairsFrom (pre ++ [x]) post := rfl

theorem pairsFrom_filter (p : String → Bool) (pre post : List String) :
    pairsFrom (pre.filter p) (post.filter p) =
      ((pairsFrom pre post).filter (fun u => p u.1)).map (fun u => (u.1, u.2.filter p)) := by
  induction post generalizing pre with
  | nil => rfl
  | cons x post ih =>
    have hih := ih (pre ++ [x])
    cases hx : p x with
    | true =>
      rw [List.filter_cons_of_pos hx, pairsFrom_cons, pairsFrom_cons]
      rw [List.filter_cons_of_pos (by simpa using hx), List.map_cons]
      rw [List.filter_append, List.filter_cons_of_pos hx, List.filter_nil] at hih
      rw [hih]
      simp
    | false =>
      rw [List.filter_cons_of_neg (by simp [hx]), pairsFrom_cons]
      rw [List.filter_cons_of_neg (by simp [hx])]
      rw [List.filter_append, List.filter_cons_of_neg (by simp [hx]), List.filter_nil,
        List.append_nil] at hih
      exact hih

theorem Conflicts_twice (cmd : Command) (names : List String) :
    Conflicts (Conflicts cmd names) names =
      { cmd with
        flags := register kConflicts (pairsFrom [] names ++ pairsFrom [] names) cmd.flags } := by
  rw [Conflicts_eq, Conflicts_eq, ← foldl_attachAt_eq_register, List.foldl_append]

/-- A registration call with the unknown names removed is told apart from the
full call by no test of the resolver. -/
theorem register_filter_agree (key : String) (hkey : key = kConflicts ∨ key = kDepends)
    (cmd : Command) (names : List String) :
    List.Forall₂ (Agree (fun n => (cmd.lookup n).isSome))
      (register key (pairsFrom [] names) cmd.flags)
      (register key (pairsFrom [] (names.filter (fun n => (cmd.lookup n).isSome))) cmd.flags) := by
  apply register_forall₂ key _
    (fun a b => b = (a.filter (fun u => (cmd.lookup u.1).isSome)).map
      (fun u => (u.1, u.2.filter (fun n => (cmd.lookup n).isSome))))
  · intro a b q hab
    rw [hab, List.filter_map, List.filter_filter, List.filter_filter]
    congr 2
    funext u
    simp [Bool.and_comm]
  · intro f hf a b hab hname
    apply agree_attachAll key hkey
    intro p hp
    have hall : a.filter (fun u => (cmd.lookup u.1).isSome) = a := by
      rw [List.filter_eq_self]
      intro u hu
      rw [hname u hu]
      exact lookupFlag_isSome_of_mem _ _ hf
    rw [hab, hall]
    have : (a.map (fun u => (u.1, u.2.filter (fun n => (cmd.lookup n).isSome)))).flatMap
        (fun u => u.2) = (a.flatMap (fun u => u.2)).filter (fun n => (cmd.lookup n).isSome) := by
      rw [List.filter_flatMap, List.flatMap_map]
    rw [this, List.find?_filter]
    congr 1
    funext n
    cases hpn : p n with
    | false => simp
    | true => simp [hp n hpn]
  · exact pairsFrom_filter _ [] names

/-! ## `Mandatory` and unknown names -/

theorem lookupFlag_modifyFlag_isSome (m n : String) (g : Flag → Flag)
    (hg : ∀ f, (g f).Name = f.Name) (fs : List Flag) :
    (lookupFlag m (modifyFlag n g fs)).isSome = (lookupFlag m fs).isSome := by
  induction fs with
  | nil => rfl
  | cons f fs ih =>
    unfold modifyFlag
    by_cases hn : f.Name = n
    · rw [if_pos hn]
      unfold lookupFlag
      rw [hg f]
      by_cases hm : f.Name = m <;> simp [hm]
    · rw [if_neg hn]
      unfold lookupFlag
      by_cases hm : f.Name = m
      · simp [hm]
      · simp only [hm, if_false]
        exact ih

theorem foldl_markAt_filter (known : String → Bool) (names : List String) (fs : List Flag)
    (h : ∀ n, (lookupFlag n fs).isSome = known n) :
    names.foldl markAt fs = (names.filter known).foldl markAt fs := by
  induction names generalizing fs with
  | nil => rfl
  | cons n ns ih =>
    have hstep : ∀ m, (lookupFlag m (markAt fs n)).isSome = known m := by
      intro m
      unfold markAt
      rw [lookupFlag_modifyFlag_isSome _ _ (fun f => f.setEntry kMandatory [])
        (fun _ => rfl), h]
    cases hn : known n with
    | true =>
      rw [List.filter_cons_of_pos hn, List.foldl_cons, List.foldl_cons]
      exact ih _ hstep
    | false =>
      rw [List.filter_cons_of_neg (by simp [hn]), List.foldl_cons]
      have hnone : lookupFlag n fs = none := by
        have := h n
        rw [hn] at this
        simpa using this
      have : markAt fs n = fs := modifyFlag_of_lookup_none _ _ _ hnone
      rw [this]
      exact ih _ h

theorem Mandatory_filter (cmd : Command) (names : List String) :
    Mandatory cmd names = Mandatory cmd (names.filter (fun n => (cmd.lookup n).isSome)) := by
  rw [Mandatory_eq, Mandatory_eq,
    foldl_markAt_filter (fun n => (cmd.lookup n).isSome) names cmd.flags (fun _ => rfl)]

theorem Mandatory_unknown (cmd : Command) (names : List String)
    (h : ∀ n ∈ names, cmd.lookup n = none) : Mandatory cmd names = cmd := by
  rw [Mandatory_filter]
  have : names.filter (fun n => (cmd.lookup n).isSome) = [] := by
    rw [List.filter_eq_nil_iff]
    intro n hn
    simp [h n hn]
  rw [this]
  rfl

theorem register_lookup_known (key : String) (cmd : Command)
    (ups : List (String × List String)) (n : String) (o : Flag)
    (h : ({ cmd with flags := register key ups cmd.flags } : Command).lookup n = some o) :
    (cmd.lookup n).isSome = true := by
  obtain ⟨f, hf, -⟩ := lookup_register_some key cmd ups n o h
  simp [hf]

theorem Resolve_register_filter (key : String) (hkey : key = kConflicts ∨ key = kDepends)
    (cmd : Command) (names : List String) :
    Resolve { cmd with flags := register key (pairsFrom [] names) cmd.flags } =
      Resolve
        { cmd with
          flags := register key
            (pairsFrom [] (names.filter (fun n => (cmd.lookup n).isSome))) cmd.flags } := by
  refine Resolve_congr _ _ (fun n => (cmd.lookup n).isSome)
    (fun n o h => register_lookup_known key cmd _ n o h) ?_
    (register_filter_agree key hkey cmd names)
  rfl

theorem Resolve_Conflicts_twice (cmd : Command) (names : List String) :
    Resolve (Conflicts (Conflicts cmd names) names) = Resolve (Conflicts cmd names) := by
  rw [Conflicts_twice, Conflicts_reg]
  refine Resolve_congr _ _ (fun _ => true) (fun _ _ _ => rfl) ?_ ?_
  · rfl
  apply register_forall₂ kConflicts _ (fun a b => a = b ++ b)
  · intro a b q hab
    rw [hab, List.filter_append]
  · intro f _ a b hab _
    apply agree_attachAll kConflicts (Or.inl rfl)
    intro p _
    rw [hab, List.flatMap_append, List.find?_append]
    cases List.find? p (b.flatMap (fun u => u.2)) <;> rfl
  · rfl

/-- After `Conflicts` on a command without constraints, with pairwise distinct
names among which `a` and `b` name flags that are both set: `Resolve` reports
a conflict between two set flags, and when no other flag is set the two flags
are those of `a` and `b`. -/
theorem Conflicts_pair_outcome (cmd : Command) (names : List String) (a b : String)
    (fa fb : Flag) (hun : Unconstrained cmd) (hnd : names.Nodup)
    (ha : a ∈ names) (hb : b ∈ names) (hab : a ≠ b)
    (hfa : cmd.lookup a = some fa) (hfb : cmd.lookup b = some fb)
    (hca : fa.Changed = true) (hcb : fb.Changed = true) :
    (∃ f ∈ cmd.flags, ∃ o ∈ cmd.flags, f.Changed = true ∧ o.Changed = true ∧
      Resolve (Conflicts cmd names) = some (conflictsMsg f o)) ∧
    ((∀ f ∈ cmd.flags, f.Changed = true → f.Name = a ∨ f.Name = b) →
      Resolve (Conflicts cmd names) = some (conflictsMsg fa fb) ∨
      Resolve (Conflicts cmd names) = some (conflictsMsg fb fa)) := by
  have hne := Resolve_Conflicts_fails cmd names a b fa fb ha hb hab hfa hfb hca hcb
  obtain ⟨e, he⟩ := Option.ne_none_iff_exists'.mp hne
  obtain ⟨f, o, n, u, hu, hfirst, hfc, hu1, hu2, hlo, hoc, hmsg⟩ :=
    Resolve_Conflicts_error cmd names hun e he
  have hfmem := (lookupFlag_some _ _ _ hfirst).2
  have hon := lookupFlag_some _ _ _ hlo
  constructor
  · exact ⟨f, hfmem, o, hon.2, hfc, hoc, by rw [he, hmsg]⟩
  · intro honly
    have hself := pairs_not_self names hnd u hu
    have hnf : n ≠ f.Name := by
      intro h
      rw [hu1, ← h] at hself
      exact hself hu2
    rw [he, hmsg]
    rcases honly f hfmem hfc with h1 | h1 <;> rcases honly o hon.2 hoc with h2 | h2
    · exact absurd (hon.1.symm.trans (h2.trans h1.symm)) hnf
    · left
      rw [h1, hfa] at hfirst
      rw [← hon.1, h2, hfb] at hlo
      cases hfirst
      cases hlo
      rfl
    · right
      rw [h1, hfb] at hfirst
      rw [← hon.1, h2, hfa] at hlo
      cases hfirst
      cases hlo
      rfl
    · exact absurd (hon.1.symm.trans (h2.trans h1.symm)) hnf

/-! ## Reordering the names of a `Conflicts` call -/

theorem foldl_filter_forall₂_on {β : Type} (R : Flag → Flag → Prop) (p1 p2 : Flag → Bool)
    (s1 s2 : β → Flag → β) (l1 l2 : List Flag) (h : List.Forall₂ R l1 l2)
    (hp : ∀ f g, R f g → p1 f = p2 g)
    (hs : ∀ acc f g, R f g → p1 f = true → s1 acc f = s2 acc g) (init : β) :
    (l1.filter p1).foldl s1 init = (l2.filter p2).foldl s2 init := by
  induction h generalizing init with
  | nil => rfl
  | cons hfg hrest ih =>
    rename_i f g fs gs
    rw [List.filter_cons, List.filter_cons, ← hp f g hfg]
    cases hpf : p1 f
    · simpa using ih init
    · simp only [if_true, List.foldl_cons]
      rw [hs init f g hfg hpf]
      exact ih _

theorem find?_unique (l : List String) (p : String → Bool) (y : String) (hy : y ∈ l)
    (hpy : p y = true) (hu : ∀ z ∈ l, p z = true → z = y) : l.find? p = some y := by
  induction l with
  | nil => cases hy
  | cons z zs ih =>
    rw [List.find?_cons]
    cases hpz : p z with
    | true =>
      simp only
      rw [hu z (List.mem_cons_self _ _) hpz]
    | false =>
      simp only
      rcases List.mem_cons.mp hy with h1 | h1
      · rw [h1, hpz] at hpy
        cases hpy
      · exact ih h1 (fun w hw hpw => hu w (List.mem_cons_of_mem _ hw) hpw)

theorem pairs_find (names : List String) (hnd : names.Nodup) (x y : String)
    (hx : x ∈ names) (hy : y ∈ names) (hxy : x ≠ y) (p q : String → Bool)
    (hpy : p y = true) (hp : ∀ n, p n = true → n = x ∨ n = y)
    (hname : ∀ u ∈ (pairsFrom [] names).filter (fun u => q u.1), u.1 = x) :
    (((pairsFrom [] names).filter (fun u => q u.1)).flatMap (fun u => u.2)).find? p =
      if q x = true then some y else none := by
  by_cases hq : q x = true
  · rw [if_pos hq]
    obtain ⟨u, hu, hu1, hu2⟩ := pairs_cover names x hx
    apply find?_unique _ _ _ _ hpy
    · intro z hz hpz
      rw [List.mem_flatMap] at hz
      obtain ⟨v, hv, hzv⟩ := hz
      have hv1 := hname v hv
      have hvm := (List.mem_filter.mp hv).1
      rcases hp z hpz with h | h
      · exfalso
        apply pairs_not_self names hnd v hvm
        rw [hv1, ← h]
        exact hzv
      · exact h
    · rw [List.mem_flatMap]
      exact ⟨u, List.mem_filter.mpr ⟨hu, by rw [hu1]; exact hq⟩, hu2 y hy (Ne.symm hxy)⟩
  · rw [if_neg hq]
    have : (pairsFrom [] names).filter (fun u => q u.1) = [] := by
      rw [List.filter_eq_nil_iff]
      intro u hu hqu
      apply hq
      rw [← hname u (List.mem_filter.mpr ⟨hu, hqu⟩)]
      exact hqu
    rw [this]
    rfl

theorem filter_names_transfer (names names1 : List String) (hperm : names1.Perm names)
    (q : String → Bool) (x : String)
    (hname : ∀ u ∈ (pairsFrom [] names).filter (fun u => q u.1), u.1 = x) :
    ∀ u ∈ (pairsFrom [] names1).filter (fun u => q u.1), u.1 = x := by
  intro u hu
  rw [List.mem_filter] at hu
  have hmem : u.1 ∈ names := hperm.mem_iff.mp (pairs_subset names1 u hu.1).1
  obtain ⟨v, hv, hv1, -⟩ := pairs_cover names u.1 hmem
  rw [← hv1]
  exact hname v (List.mem_filter.mpr ⟨hv, by rw [hv1]; exact hu.2⟩)

theorem hitsConflict_register (key : String) (cmd : Command)
    (ups : List (String × List String)) :
    hitsConflict { cmd with flags := register key ups cmd.flags } = hitsConflict cmd := by
  funext n
  unfold hitsConflict
  rw [lookup_register]
  cases cmd.lookup n with
  | none => rfl
  | some f => simp

theorem register_resolveDepends (cmd : Command) (ups : List (String × List String))
    (hun : Unconstrained cmd) :
    resolveDepends { cmd with flags := register kConflicts ups cmd.flags } = none := by
  rw [resolveDepends_eq_none_iff]
  intro g hg _ n hn
  obtain ⟨f, hf, -, -, -, hann, -⟩ := mem_register_frame _ _ _ g hg
  unfold Flag.payload at hn
  rw [hann _ (Ne.symm kConflicts_ne_kDepends), (hun.2 f hf).2.1] at hn
  cases hn

theorem Resolve_register_conflicts (cmd : Command) (ups : List (String × List String))
    (hun : Unconstrained cmd) :
    Resolve { cmd with flags := register kConflicts ups cmd.flags } =
      resolveConflicts { cmd with flags := register kConflicts ups cmd.flags } := by
  obtain ⟨hM, hO⟩ := register_passes_first_checks kConflicts kMandatory_ne_kConflicts cmd
    ups hun
  unfold Resolve
  rw [hM, hO, register_resolveDepends cmd ups hun]
  cases resolveConflicts { cmd with flags := register kConflicts ups cmd.flags } <;> rfl

/-- On a command without constraints, when the flags of `a` and `b` are the only
set flags, `Resolve` returns the same error after `Conflicts` with the names in
any other order. -/
theorem Conflicts_perm_same (cmd : Command) (names names1 : List String) (a b : String)
    (fa fb : Flag) (hun : Unconstrained cmd) (hnd : names.Nodup)
    (hperm : names1.Perm names) (ha : a ∈ names) (hb : b ∈ names) (hab : a ≠ b)
    (hfa : cmd.lookup a = some fa) (hfb : cmd.lookup b = some fb)
    (hca : fa.Changed = true) (hcb : fb.Changed = true)
    (honly : ∀ f ∈ cmd.flags, f.Changed = true → f.Name = a ∨ f.Name = b) :
    Resolve (Conflicts cmd names1) = Resolve (Conflicts cmd names) := by
  rw [Conflicts_reg, Conflicts_reg, Resolve_register_conflicts _ _ hun,
    Resolve_register_conflicts _ _ hun]
  have hp : ∀ n, hitsConflict cmd n = true → n = a ∨ n = b := by
    intro n hn
    unfold hitsConflict at hn
    cases hl : cmd.lookup n with
    | none => rw [hl] at hn; cases hn
    | some o =>
      rw [hl] at hn
      have ho := lookupFlag_some _ _ _ hl
      rw [← ho.1]
      exact honly o ho.2 hn
  have hpa : hitsConflict cmd a = true := by simp [hitsConflict, hfa, hca]
  have hpb : hitsConflict cmd b = true := by simp [hitsConflict, hfb, hcb]
  have hnd1 : names1.Nodup := hperm.nodup_iff.mpr hnd
  have ha1 : a ∈ names1 := hperm.mem_iff.mpr ha
  have hb1 : b ∈ names1 := hperm.mem_iff.mpr hb
  have hF : List.Forall₂
      (fun f g => g.Name = f.Name ∧ g.Shorthand = f.Shorthand ∧ g.Changed = f.Changed ∧
        (f.Changed = true → (g.payload kConflicts).find? (hitsConflict cmd) =
          (f.payload kConflicts).find? (hitsConflict cmd)))
      (register kConflicts (pairsFrom [] names1) cmd.flags)
      (register kConflicts (pairsFrom [] names) cmd.flags) := by
    apply register_forall₂ kConflicts _
      (fun a1 b1 => ∃ q : String → Bool,
        a1 = (pairsFrom [] names1).filter (fun u => q u.1) ∧
        b1 = (pairsFrom [] names).filter (fun u => q u.1))
    · rintro a1 b1 q1 ⟨q, rfl, rfl⟩
      exact ⟨fun n => q1 n && q n, by rw [List.filter_filter], by rw [List.filter_filter]⟩
    · rintro f hf a1 b1 ⟨q, rfl, rfl⟩ hname
      refine ⟨by simp, by simp, by simp, ?_⟩
      intro hch
      rw [attachAll_Changed] at hch
      rw [attachAll_payload, attachAll_payload, payload_of_none _ _ (hun.2 f hf).1,
        List.nil_append, List.nil_append]
      have hnameA := filter_names_transfer names1 names hperm.symm q f.Name hname
      rcases honly f hf hch with h | h
      · rw [h] at hname hnameA
        rw [pairs_find names hnd a b ha hb hab _ q hpb hp hnameA,
          pairs_find names1 hnd1 a b ha1 hb1 hab _ q hpb hp hname]
      · rw [h] at hname hnameA
        rw [pairs_find names hnd b a hb ha (Ne.symm hab) _ q hpa
            (fun n hn => (hp n hn).symm) hnameA,
          pairs_find names1 hnd1 b a hb1 ha1 (Ne.symm hab) _ q hpa
            (fun n hn => (hp n hn).symm) hname]
    · exact ⟨fun _ => true, by simp, by simp⟩
  unfold resolveConflicts Command.Visit
  apply foldl_filter_forall₂_on _ _ _ _ _ _ _ hF
  · intro f g h
    exact h.2.2.1.symm
  · intro acc f g h hch
    simp only [decide_eq_true_eq] at hch
    rw [conflictsLoop_eq_find, conflictsLoop_eq_find, hitsConflict_register,
      hitsConflict_register, h.2.2.2 hch]
    cases (f.payload kConflicts).find? (hitsConflict cmd) with
    | none => rfl
    | some n =>
      simp only
      rw [lookup_register, lookup_register]
      cases cmd.lookup n with
      | none => rfl
      | some o =>
        simp [conflictsMsg, h.1, h.2.1]

/-! ## The properties of the specification -/

theorem append_lit3 (x y z w r : String) (h : x ++ y ++ z = w) :
    x ++ (y ++ (z ++ r)) = w ++ r := by
  rw [← h, String.append_assoc, String.append_assoc]

/-- The text of the message of `resolveMandatory`. -/
theorem mandatoryMsg_eq (f : Flag) :
    mandatoryMsg f =
      "mandatory flag \"-" ++ f.Shorthand ++ ", --" ++ f.Name ++ "\" not specified" := by
  have hlit : "mandatory flag " ++ "\"-" = "mandatory flag \"-" := by decide
  simp only [mandatoryMsg, quoted, String.append_assoc]
  rw [← String.append_assoc "mandatory flag " "\"-", hlit,
    show "\"" ++ " not specified" = "\" not specified" from by decide]

/-- The text of the message of `resolveConflicts`. -/
theorem conflictsMsg_eq (f o : Flag) :
    conflictsMsg f o =
      "\"-" ++ f.Shorthand ++ ", --" ++ f.Name ++ "\" conflicts with \"-" ++
        o.Shorthand ++ ", --" ++ o.Name ++ "\"" := by
  simp only [conflictsMsg, quoted, String.append_assoc]
  rw [append_lit3 "\"" " conflicts with " "\"-" "\" conflicts with \"-" _ (by decide)]

/-- The text of the message of `resolveDepends`. -/
theorem dependsMsg_eq (f o : Flag) :
    dependsMsg f o =
      "\"-" ++ f.Shorthand ++ ", --" ++ f.Name ++ "\" depends on \"-" ++
        o.Shorthand ++ ", --" ++ o.Name ++ "\"" := by
  simp only [dependsMsg, quoted, String.append_assoc]
  rw [append_lit3 "\"" " depends on " "\"-" "\" depends on \"-" _ (by decide)]

theorem head_ne_of_ne (s t : String) (h : s.data.head? ≠ t.data.head?) : s ≠ t := by
  intro hst
  exact h (by rw [hst])

/-- C1: `Resolve` returns success (`nil`) if and only if all four constraint
kinds are satisfied: every flag with the mandatory marker is Changed; if the
command has the oneatleast marker then some flag is Changed; for every Changed
flag no name of its conflicts payload resolves to a Changed flag; for every
Changed flag every name of its depends payload that resolves to a flag
resolves to a Changed flag.  Otherwise it returns an error. -/
theorem Resolve_iff_constraints (cmd : Command) :
    (Resolve cmd = none ↔
      (∀ f ∈ cmd.flags, (f.Annotations kMandatory).isSome = true → f.Changed = true) ∧
      ((cmd.Annotations kOneAtLeast).isSome = true → ∃ f ∈ cmd.flags, f.Changed = true) ∧
      (∀ f ∈ cmd.flags, f.Changed = true → ∀ n ∈ f.payload kConflicts,
        ¬ ∃ other, cmd.lookup n = some other ∧ other.Changed = true) ∧
      (∀ f ∈ cmd.flags, f.Changed = true → ∀ n ∈ f.payload kDepends,
        ∀ other, cmd.lookup n = some other → other.Changed = true)) ∧
    (Resolve cmd ≠ none ↔ ∃ e, Resolve cmd = some e) := by
  constructor
  · rw [Resolve_success_iff]
    simp only [not_exists, not_and, Bool.not_eq_true]
  · cases Resolve cmd <;> simp

/-- C2 (mandatory precedence): when some flag with the mandatory marker is not
Changed, `Resolve` returns the result of the mandatory check, which is the
message `mandatory flag "-<short>, --<long>" not specified` for an unmet
mandatory flag; that message is no one-at-least, conflicts or depends
message, whatever else is violated. -/
theorem mandatory_precedence (cmd : Command) (f : Flag) (hf : f ∈ cmd.flags)
    (hm : (f.Annotations kMandatory).isSome = true) (hc : f.Changed = false) :
    Resolve cmd = resolveMandatory cmd ∧
    ∃ g ∈ cmd.flags, (g.Annotations kMandatory).isSome = true ∧ g.Changed = false ∧
      ∃ msg : String,
        msg = "mandatory flag \"-" ++ g.Shorthand ++ ", --" ++ g.Name ++ "\" not specified" ∧
        Resolve cmd = some msg ∧
        (∀ s, msg ≠ "one or more flags required: " ++ s) ∧
        (∀ s1 n1 s2 n2 : String,
          msg ≠ "\"-" ++ s1 ++ ", --" ++ n1 ++ "\" conflicts with \"-" ++
            s2 ++ ", --" ++ n2 ++ "\"") ∧
        (∀ s1 n1 s2 n2 : String,
          msg ≠ "\"-" ++ s1 ++ ", --" ++ n1 ++ "\" depends on \"-" ++
            s2 ++ ", --" ++ n2 ++ "\"") := by
  have hne : resolveMandatory cmd ≠ none := by
    intro h
    rw [resolveMandatory_eq_none_iff] at h
    have := h f hf hm
    rw [hc] at this
    cases this
  obtain ⟨e, he⟩ := Option.ne_none_iff_exists'.mp hne
  obtain ⟨g, hg, hgm, hgc, hge⟩ := resolveMandatory_eq_some cmd e he
  refine ⟨by rw [he]; exact Resolve_of_mandatory cmd e he, g, hg, hgm, hgc, _, rfl,
    ?_, ?_, ?_, ?_⟩
  · rw [← mandatoryMsg_eq, ← hge]
    exact Resolve_of_mandatory cmd e he
  · intro s
    rw [← mandatoryMsg_eq]
    apply head_ne_of_ne
    rw [mandatoryMsg_head, oneAtLeast_head]
    decide
  · intro s1 n1 s2 n2
    rw [← mandatoryMsg_eq]
    have := conflictsMsg_eq ⟨n1, s1, false, noAnnotations⟩ ⟨n2, s2, false, noAnnotations⟩
    simp only at this
    rw [← this]
    apply head_ne_of_ne
    rw [mandatoryMsg_head, conflictsMsg_head]
    decide
  · intro s1 n1 s2 n2
    rw [← mandatoryMsg_eq]
    have := dependsMsg_eq ⟨n1, s1, false, noAnnotations⟩ ⟨n2, s2, false, noAnnotations⟩
    simp only at this
    rw [← this]
    apply head_ne_of_ne
    rw [mandatoryMsg_head, dependsMsg_head]
    decide

theorem mandatory_precedence_witness :
    (Resolve cmdForce = resolveMandatory cmdForce ∧
      ∃ g ∈ cmdForce.flags, (g.Annotations kMandatory).isSome = true ∧ g.Changed = false ∧
        ∃ msg : String,
          msg =
            "mandatory flag \"-" ++ g.Shorthand ++ ", --" ++ g.Name ++ "\" not specified" ∧
          Resolve cmdForce = some msg ∧
          (∀ s, msg ≠ "one or more flags required: " ++ s) ∧
          (∀ s1 n1 s2 n2 : String,
            msg ≠ "\"-" ++ s1 ++ ", --" ++ n1 ++ "\" conflicts with \"-" ++
              s2 ++ ", --" ++ n2 ++ "\"") ∧
          (∀ s1 n1 s2 n2 : String,
            msg ≠ "\"-" ++ s1 ++ ", --" ++ n1 ++ "\" depends on \"-" ++
              s2 ++ ", --" ++ n2 ++ "\"")) ∧
    Resolve cmdForce = some "mandatory flag \"-f, --force\" not specified" ∧
    resolveConflicts cmdForce = some "\"-y, --b\" conflicts with \"-x, --a\"" :=
  ⟨mandatory_precedence cmdForce forceFlag
    (List.Mem.tail _ (List.Mem.tail _ (List.Mem.head _))) rfl rfl, by decide, by decide⟩

/-- C3, the claim as stated fails: with the flags `a`, `b` and `c` all set, the
call `Conflicts(cmd, "a", "b", "c")` makes `Resolve` name `c` and `a`, and the
call with the positions of `a` and `b` swapped makes it name `c` and `b`: the
set of the two flags in the error is not the same for the two calls. -/
theorem Conflicts_swap_changes_peer :
    Resolve (Conflicts (cmdABC true true true) ["a", "b", "c"]) =
        some "\"-z, --c\" conflicts with \"-x, --a\"" ∧
      Resolve (Conflicts (cmdABC true true true) ["b", "a", "c"]) =
        some "\"-z, --c\" conflicts with \"-y, --b\"" := by
  decide

/-- C3 (symmetry of conflicts), amended: on a command without constraints, for a
list of pairwise distinct names in which `a` and `b` (at any two positions)
name flags that are both Changed, `Resolve` after `Conflicts(cmd, names...)`
fails with a conflicts error `"-<short>, --<long>" conflicts with
"-<short>, --<long>"` between two Changed flags, and so it does for every
reordering of the names of the call, in particular with the positions of `a`
and `b` swapped.  When `a` and `b` are the only Changed flags, the two flags
in the error are exactly those of `a` and `b`, and the error after the
reordered call is the error after the original call. -/
theorem Conflicts_symmetric (cmd : Command) (names : List String) (a b : String)
    (fa fb : Flag) (hun : Unconstrained cmd) (hnd : names.Nodup)
    (ha : a ∈ names) (hb : b ∈ names) (hab : a ≠ b)
    (hfa : cmd.lookup a = some fa) (hfb : cmd.lookup b = some fb)
    (hca : fa.Changed = true) (hcb : fb.Changed = true) :
    ∀ names1 : List String, names1.Perm names →
      (∃ f ∈ cmd.flags, ∃ o ∈ cmd.flags, f.Changed = true ∧ o.Changed = true ∧
        Resolve (Conflicts cmd names1) =
          some ("\"-" ++ f.Shorthand ++ ", --" ++ f.Name ++ "\" conflicts with \"-" ++
            o.Shorthand ++ ", --" ++ o.Name ++ "\"")) ∧
      ((∀ f ∈ cmd.flags, f.Changed = true → f.Name = a ∨ f.Name = b) →
        (Resolve (Conflicts cmd names1) =
            some ("\"-" ++ fa.Shorthand ++ ", --" ++ a ++ "\" conflicts with \"-" ++
              fb.Shorthand ++ ", --" ++ b ++ "\"") ∨
          Resolve (Conflicts cmd names1) =
            some ("\"-" ++ fb.Shorthand ++ ", --" ++ b ++ "\" conflicts with \"-" ++
              fa.Shorthand ++ ", --" ++ a ++ "\"")) ∧
        Resolve (Conflicts cmd names1) = Resolve (Conflicts cmd names)) := by
  intro names1 hperm
  have hout := Conflicts_pair_outcome cmd names1 a b fa fb hun (hperm.nodup_iff.mpr hnd)
    (hperm.mem_iff.mpr ha) (hperm.mem_iff.mpr hb) hab hfa hfb hca hcb
  have hna := (lookupFlag_some _ _ _ hfa).1
  have hnb := (lookupFlag_some _ _ _ hfb).1
  constructor
  · obtain ⟨f, hf, o, ho, hfc, hoc, hres⟩ := hout.1
    exact ⟨f, hf, o, ho, hfc, hoc, by rw [hres, conflictsMsg_eq]⟩
  · intro honly
    refine ⟨?_, Conflicts_perm_same cmd names names1 a b fa fb hun hnd hperm ha hb hab
      hfa hfb hca hcb honly⟩
    rcases hout.2 honly with h | h
    · left
      rw [h, conflictsMsg_eq, hna, hnb]
    · right
      rw [h, conflictsMsg_eq, hna, hnb]

theorem Conflicts_symmetric_witness :
    (Resolve (Conflicts (cmdABC true true false) ["b", "a", "c"]) =
          some "\"-x, --a\" conflicts with \"-y, --b\"" ∨
        Resolve (Conflicts (cmdABC true true false) ["b", "a", "c"]) =
          some "\"-y, --b\" conflicts with \"-x, --a\"") ∧
      Resolve (Conflicts (cmdABC true true false) ["b", "a", "c"]) =
        Resolve (Conflicts (cmdABC true true false) ["a", "b", "c"]) :=
  (Conflicts_symmetric (cmdABC true true false) ["a", "b", "c"] "a" "b"
    (mkFlag "a" "x" true) (mkFlag "b" "y" true) ⟨rfl, by decide⟩ (by decide) (by decide)
    (by decide) (by decide) rfl rfl rfl rfl ["b", "a", "c"]
    (List.Perm.swap "a" "b" ["c"])).2 (by decide)

/-- C4 (full mutual dependency): on a command without constraints, `Resolve`
after `Depends(cmd, names...)` succeeds if and only if the flags that the
names of the list resolve to are all Changed or all not Changed; flags not
named in the list play no part. -/
theorem Depends_all_or_none (cmd : Command) (names : List String) (hun : Unconstrained cmd) :
    Resolve (Depends cmd names) = none ↔
      (∀ n ∈ names, ∀ f, cmd.lookup n = some f → f.Changed = true) ∨
      (∀ n ∈ names, ∀ f, cmd.lookup n = some f → f.Changed = false) := by
  rw [Depends_reg, Resolve_eq_none_iff]
  obtain ⟨hM, hO⟩ := register_passes_first_checks kDepends kMandatory_ne_kDepends cmd
    (pairsFrom [] names) hun
  have hC : resolveConflicts
      { cmd with flags := register kDepends (pairsFrom [] names) cmd.flags } = none := by
    rw [resolveConflicts_eq_none_iff]
    intro g hg _ n hn
    obtain ⟨f, hf, -, -, -, hann, -⟩ := mem_register_frame _ _ _ g hg
    unfold Flag.payload at hn
    rw [hann _ kConflicts_ne_kDepends, (hun.2 f hf).1] at hn
    cases hn
  simp only [hM, hO, hC, true_and]
  rw [resolveDepends_eq_none_iff]
  constructor
  · intro h4
    by_cases hex : ∃ n0 ∈ names, ∃ f0, cmd.lookup n0 = some f0 ∧ f0.Changed = true
    · left
      obtain ⟨n0, hn0, f0, hl0, hc0⟩ := hex
      intro n hn f hl
      by_cases hnn : n = n0
      · subst hnn
        rw [hl] at hl0
        cases hl0
        exact hc0
      · have hla0 := lookup_register kDepends cmd (pairsFrom [] names) n0
        have hla := lookup_register kDepends cmd (pairsFrom [] names) n
        rw [hl0] at hla0
        rw [hl] at hla
        simp only [Option.map_some'] at hla0 hla
        obtain ⟨u, hu, hu1, hu2⟩ := pairs_cover names n0 hn0
        have := h4 _ (lookupFlag_some _ _ _ hla0).2 (by simpa using hc0) n (by
          rw [attachAll_payload, List.mem_append, List.mem_flatMap]
          right
          exact ⟨u, List.mem_filter.mpr ⟨hu, by simpa using hu1⟩, hu2 n hn hnn⟩) _ hla
        simpa using this
    · right
      intro n hn f hl
      by_contra hc
      exact hex ⟨n, hn, f, hl, by simpa using hc⟩
  · intro hcase g hg hgc n hn other hl
    obtain ⟨f, hf, hN, hS, hC, hann, hpay⟩ := mem_register_frame _ _ _ g hg
    rcases hpay n hn with hx | ⟨hfirst, u, hu, hu1, hu2⟩
    · rw [payload_of_none _ _ (hun.2 f hf).2.1] at hx
      cases hx
    · obtain ⟨o, hlo, -, -, hoC⟩ := lookup_register_some _ _ _ _ _ hl
      have hsub := pairs_subset names u hu
      rcases hcase with hall | hnone
      · rw [hoC]
        exact hall n (hsub.2 n hu2) o hlo
      · have := hnone f.Name (hu1 ▸ hsub.1) f hfirst
        rw [← hC, hgc] at this
        cases this

theorem Depends_all_or_none_witness :
    Resolve (Depends (cmdABC true false true) ["a", "b"]) = none ↔
      (∀ n ∈ ["a", "b"], ∀ f, (cmdABC true false true).lookup n = some f → f.Changed = true) ∨
      (∀ n ∈ ["a", "b"], ∀ f, (cmdABC true false true).lookup n = some f → f.Changed = false) :=
  Depends_all_or_none (cmdABC true false true) ["a", "b"] ⟨rfl, by decide⟩

/-- C5 (one-at-least is command-wide): on a command with the oneatleast marker,
if any flag at all is Changed the one-at-least check passes and `Resolve` does
not return a `one or more flags required` error; if no flag is Changed,
`Resolve` fails. -/
theorem OneAtLeast_command_wide (cmd : Command)
    (hm : (cmd.Annotations kOneAtLeast).isSome = true) :
    ((∃ f ∈ cmd.flags, f.Changed = true) →
      resolveOneAtLeast cmd = none ∧
        ∀ s, Resolve cmd ≠ some ("one or more flags required: " ++ s)) ∧
    ((∀ f ∈ cmd.flags, f.Changed = false) → ∃ e, Resolve cmd = some e) := by
  constructor
  · intro hex
    have hO : resolveOneAtLeast cmd = none := by
      rw [resolveOneAtLeast_eq_none_iff]
      exact fun _ => hex
    refine ⟨hO, ?_⟩
    intro s h
    rcases Resolve_eq_some _ _ h with h1 | ⟨-, h1⟩ | ⟨-, -, h1⟩ | ⟨-, -, -, h1⟩
    · obtain ⟨g, -, -, -, hg⟩ := resolveMandatory_eq_some _ _ h1
      have := congrArg (fun t => t.data.head?) hg
      simp only [oneAtLeast_head, mandatoryMsg_head] at this
      exact absurd this (by decide)
    · rw [hO] at h1
      cases h1
    · obtain ⟨g, -, -, n, -, o, -, -, hg⟩ := resolveConflicts_eq_some _ _ h1
      have := congrArg (fun t => t.data.head?) hg
      simp only [oneAtLeast_head, conflictsMsg_head] at this
      exact absurd this (by decide)
    · obtain ⟨g, -, -, n, -, o, -, -, hg⟩ := resolveDepends_eq_some _ _ h1
      have := congrArg (fun t => t.data.head?) hg
      simp only [oneAtLeast_head, dependsMsg_head] at this
      exact absurd this (by decide)
  · intro hnone
    apply Option.ne_none_iff_exists'.mp
    intro h
    rw [Resolve_eq_none_iff] at h
    obtain ⟨f, hf, hc⟩ := (resolveOneAtLeast_eq_none_iff cmd).mp h.2.1 hm
    rw [hnone f hf] at hc
    cases hc

theorem OneAtLeast_command_wide_witness :
    (resolveOneAtLeast (OneAtLeast (cmdABC false false true)) = none ∧
      ∀ s, Resolve (OneAtLeast (cmdABC false false true)) ≠
        some ("one or more flags required: " ++ s)) ∧
    ∃ e, Resolve (OneAtLeast (cmdABC false false false)) = some e :=
  ⟨(OneAtLeast_command_wide (OneAtLeast (cmdABC false false true)) rfl).1
      ⟨mkFlag "c" "z" true, List.Mem.tail _ (List.Mem.tail _ (List.Mem.head _)), rfl⟩,
    (OneAtLeast_command_wide (OneAtLeast (cmdABC false false false)) rfl).2 (by decide)⟩

/-- C6 (the mandatory check and the first unmet flag): with flags `a`, `b`, `c`
none of which is set, after `Mandatory(cmd, "a", "b")` both `a` and `b` are
unmet mandatory flags and `a` comes first in the enumeration, yet `Resolve`
names `b`: the callback of `resolveMandatory` cannot stop the visit, so the
last unmet flag overwrites the error. -/
theorem mandatory_reports_last_unmet :
    Resolve (Mandatory (cmdABC false false false) ["a", "b"]) =
        some "mandatory flag \"-y, --b\" not specified" ∧
      Resolve (Mandatory (cmdABC false false false) ["a", "b"]) ≠
        some (mandatoryMsg (mkFlag "a" "x" false)) := by
  decide

/-- C7 (the conflicts check and the first violating flag): with flags `a`, `b`
set and `c` not set, after `Conflicts(cmd, "a", "b")` the first set flag with
a set peer is `a` (peer `b`), yet `Resolve` names `b` as triggering flag and
`a` as peer: the `break` ends the payload loop only, the visit goes on and the
last violating flag overwrites the error. -/
theorem conflicts_reports_last_violation :
    Resolve (Conflicts (cmdABC true true false) ["a", "b"]) =
        some "\"-y, --b\" conflicts with \"-x, --a\"" ∧
      Resolve (Conflicts (cmdABC true true false) ["a", "b"]) ≠
        some (conflictsMsg (mkFlag "a" "x" true) (mkFlag "b" "y" true)) := by
  decide

/-- C8 (the depends check and the first violating flag): with flags `a`, `b`
set and `c` not set, after `Depends(cmd, "a", "b", "c")` the first set flag
with an unset dependency is `a` (dependency `c`), yet `Resolve` names `b` as
dependent: the `break` ends the payload loop only, the visit goes on and the
last violating flag overwrites the error. -/
theorem depends_reports_last_violation :
    Resolve (Depends (cmdABC true true false) ["a", "b", "c"]) =
        some "\"-y, --b\" depends on \"-z, --c\"" ∧
      Resolve (Depends (cmdABC true true false) ["a", "b", "c"]) ≠
        some (dependsMsg (mkFlag "a" "x" true) (mkFlag "c" "z" false)) := by
  decide

/-- C9 (idempotent registration): for every command state (its Changed bits
included) and every list of names, `Resolve` after `Conflicts(cmd, names...)`
applied twice in a row returns what it returns after one application; in
particular it succeeds in the one case exactly when it succeeds in the other. -/
theorem Conflicts_idempotent (cmd : Command) (names : List String) :
    Resolve (Conflicts (Conflicts cmd names) names) = Resolve (Conflicts cmd names) ∧
    (Resolve (Conflicts (Conflicts cmd names) names) = none ↔
      Resolve (Conflicts cmd names) = none) := by
  have h := Resolve_Conflicts_twice cmd names
  exact ⟨h, by rw [h]⟩

/-- C10 (unknown-name tolerance): for `Conflicts`, `Depends` and `Mandatory`,
`Resolve` after the call with the full list of names returns what it returns
after the call with the names that resolve to no flag removed; and `Mandatory`
called with unknown names only leaves the flags, with their metadata, as they
were, so `Resolve` returns what it returned before the call. -/
theorem unknown_names_tolerated (cmd : Command) (names : List String) :
    Resolve (Conflicts cmd names) =
      Resolve (Conflicts cmd (names.filter (fun n => (cmd.lookup n).isSome))) ∧
    Resolve (Depends cmd names) =
      Resolve (Depends cmd (names.filter (fun n => (cmd.lookup n).isSome))) ∧
    Resolve (Mandatory cmd names) =
      Resolve (Mandatory cmd (names.filter (fun n => (cmd.lookup n).isSome))) ∧
    ((∀ n ∈ names, cmd.lookup n = none) →
      (Mandatory cmd names).flags = cmd.flags ∧
        (Mandatory cmd names).Annotations = cmd.Annotations ∧
        Resolve (Mandatory cmd names) = Resolve cmd) := by
  refine ⟨?_, ?_, ?_, ?_⟩
  · rw [Conflicts_reg, Conflicts_reg]
    exact Resolve_register_filter kConflicts (Or.inl rfl) cmd names
  · rw [Depends_reg, Depends_reg]
    exact Resolve_register_filter kDepends (Or.inr rfl) cmd names
  · rw [← Mandatory_filter]
  · intro h
    rw [Mandatory_unknown cmd names h]
    exact ⟨rfl, rfl, rfl⟩

theorem unknown_names_tolerated_witness :
    (Mandatory cmdForce ["doesnotexist"]).flags = cmdForce.flags ∧
      (Mandatory cmdForce ["doesnotexist"]).Annotations = cmdForce.Annotations ∧
      Resolve (Mandatory cmdForce ["doesnotexist"]) = Resolve cmdForce :=
  (unknown_names_tolerated cmdForce ["doesnotexist"]).2.2.2
    (fun n hn => by rw [List.mem_singleton.mp hn]; rfl)

/-! ## Messages of the single checks -/

/-- The errors `Resolve` can report after one `Depends` call on a command
without constraints. -/
theorem Resolve_Depends_error (cmd : Command) (names : List String)
    (hun : Unconstrained cmd) (e : String) (h : Resolve (Depends cmd names) = some e) :
    ∃ f o : Flag, ∃ n : String, ∃ u ∈ pairsFrom [] names,
      cmd.lookup f.Name = some f ∧ f.Changed = true ∧ u.1 = f.Name ∧ n ∈ u.2 ∧
      cmd.lookup n = some o ∧ o.Changed = false ∧ e = dependsMsg f o := by
  rw [Depends_reg] at h
  obtain ⟨hM, hO⟩ := register_passes_first_checks kDepends kMandatory_ne_kDepends cmd
    (pairsFrom [] names) hun
  rcases Resolve_eq_some _ _ h with h1 | ⟨-, h1⟩ | ⟨-, -, h1⟩ | ⟨-, -, -, h1⟩
  · rw [hM] at h1; cases h1
  · rw [hO] at h1; cases h1
  · obtain ⟨g, hg, hgc, n, hn, other, hl, hoc, he⟩ := resolveConflicts_eq_some _ _ h1
    obtain ⟨f, hf, -, -, -, hann, -⟩ := mem_register_frame _ _ _ g hg
    unfold Flag.payload at hn
    rw [hann _ kConflicts_ne_kDepends, (hun.2 f hf).1] at hn
    cases hn
  · obtain ⟨g, hg, hgc, n, hn, other, hl, hoc, he⟩ := resolveDepends_eq_some _ _ h1
    obtain ⟨f, hf, hN, hS, hC, -, hpay⟩ := mem_register_frame _ _ _ g hg
    obtain ⟨o, hlo, hoN, hoS, hoC⟩ := lookup_register_some _ _ _ _ _ hl
    rcases hpay n hn with hx | ⟨hfirst, u, hu, hu1, hu2⟩
    · rw [payload_of_none _ _ (hun.2 f hf).2.1] at hx
      cases hx
    · refine ⟨f, o, n, u, hu, hfirst, by rw [← hC]; exact hgc, hu1, hu2, hlo,
        by rw [← hoC]; exact hoc, ?_⟩
      rw [he]
      exact dependsMsg_congr _ _ _ _ hN hS hoN hoS

/-- After `Depends`, two distinct names of the call of which the first names a
set flag and the second a flag that is not set make `Resolve` fail. -/
theorem Resolve_Depends_fails (cmd : Command) (names : List String) (a b : String)
    (fa fb : Flag) (ha : a ∈ names) (hb : b ∈ names) (hab : a ≠ b)
    (hfa : cmd.lookup a = some fa) (hfb : cmd.lookup b = some fb)
    (hca : fa.Changed = true) (hcb : fb.Changed = false) :
    Resolve (Depends cmd names) ≠ none := by
  intro h
  rw [Resolve_success_iff] at h
  obtain ⟨-, -, -, hD⟩ := h
  rw [Depends_reg] at hD
  have hla := lookup_register kDepends cmd (pairsFrom [] names) a
  have hlb := lookup_register kDepends cmd (pairsFrom [] names) b
  rw [hfa] at hla
  rw [hfb] at hlb
  simp only [Option.map_some'] at hla hlb
  obtain ⟨u, hu, hu1, hu2⟩ := pairs_cover names a ha
  have hmem := (lookupFlag_some _ _ _ hla).2
  have := hD _ hmem (by simpa using hca) b (by
    rw [attachAll_payload, List.mem_append, List.mem_flatMap]
    right
    exact ⟨u, List.mem_filter.mpr ⟨hu, by simpa using hu1⟩, hu2 b hb (Ne.symm hab)⟩) _ hlb
  rw [attachAll_Changed, hcb] at this
  cases this

theorem foldl_append_singleton {α β : Type} (g : α → β) (l : List α) (init : List β) :
    l.foldl (fun acc x => acc ++ [g x]) init = init ++ l.map g := by
  induction l generalizing init with
  | nil => simp
  | cons x xs ih => rw [List.foldl_cons, ih]; simp

theorem Resolve_unconstrained (cmd : Command) (hun : Unconstrained cmd) :
    Resolve cmd = none := by
  rw [Resolve_success_iff]
  refine ⟨?_, ?_, ?_, ?_⟩
  · intro f hf hm
    rw [(hun.2 f hf).2.2] at hm
    cases hm
  · intro hm
    rw [hun.1] at hm
    cases hm
  · intro f hf _ n hn
    rw [payload_of_none _ _ (hun.2 f hf).1] at hn
    cases hn
  · intro f hf _ n hn
    rw [payload_of_none _ _ (hun.2 f hf).2.1] at hn
    cases hn

/-- C11 (unmet dependency message, E3): on a command without constraints, for
two distinct names `a` and `b` of existing flags, after `Depends(cmd, a, b)`
with the flag of `a` Changed and the flag of `b` not Changed, `Resolve` fails
with exactly `"-<short of a>, --<a>" depends on "-<short of b>, --<b>"`:
the dependent first, the missing dependency second. -/
theorem unmet_dependency_message (cmd : Command) (a b : String) (fa fb : Flag)
    (hun : Unconstrained cmd) (hab : a ≠ b)
    (hfa : cmd.lookup a = some fa) (hfb : cmd.lookup b = some fb)
    (hca : fa.Changed = true) (hcb : fb.Changed = false) :
    Resolve (Depends cmd [a, b]) =
      some ("\"-" ++ fa.Shorthand ++ ", --" ++ a ++ "\" depends on \"-" ++
        fb.Shorthand ++ ", --" ++ b ++ "\"") := by
  have hne := Resolve_Depends_fails cmd [a, b] a b fa fb (by simp) (by simp) hab hfa hfb
    hca hcb
  obtain ⟨e, he⟩ := Option.ne_none_iff_exists'.mp hne
  obtain ⟨f, o, n, u, hu, hfirst, hfc, hu1, hu2, hlo, hoc, hmsg⟩ :=
    Resolve_Depends_error cmd [a, b] hun e he
  have hna := (lookupFlag_some _ _ _ hfa).1
  have hnb := (lookupFlag_some _ _ _ hfb).1
  have hpairs : pairsFrom [] [a, b] = [(a, [b]), (b, [a])] := rfl
  rw [hpairs] at hu
  simp only [List.mem_cons, List.mem_singleton, List.not_mem_nil, or_false] at hu
  rcases hu with hu | hu
  · subst hu
    simp only [List.mem_singleton] at hu2
    subst hu2
    rw [← hu1, hfa] at hfirst
    rw [hfb] at hlo
    cases hfirst
    cases hlo
    rw [he, hmsg]
    simp only [dependsMsg, quoted, hna, hnb, String.append_assoc]
    rw [append_lit3 "\"" " depends on " "\"-" "\" depends on \"-" _ (by decide)]
  · subst hu
    rw [← hu1, hfb] at hfirst
    cases hfirst
    rw [hcb] at hfc
    cases hfc

theorem unmet_dependency_message_witness :
    Resolve (Depends cmdOutputFormat ["output", "format"]) =
      some "\"-o, --output\" depends on \"-f, --format\"" :=
  unmet_dependency_message cmdOutputFormat "output" "format"
    (mkFlag "output" "o" true) (mkFlag "format" "f" false) ⟨rfl, by decide⟩ (by decide)
    rfl rfl rfl rfl

/-- C13 (missing mandatory message, E1): when exactly one flag `f` of the
command carries the mandatory marker and is not Changed, `Resolve` fails with
exactly `mandatory flag "-<short of f>, --<long name of f>" not specified`. -/
theorem missing_mandatory_message (cmd : Command) (f : Flag) (hf : f ∈ cmd.flags)
    (hm : (f.Annotations kMandatory).isSome = true) (hc : f.Changed = false)
    (honly : ∀ g ∈ cmd.flags, (g.Annotations kMandatory).isSome = true →
      g.Changed = false → g = f) :
    Resolve cmd =
      some ("mandatory flag \"-" ++ f.Shorthand ++ ", --" ++ f.Name ++ "\" not specified") := by
  have hne : resolveMandatory cmd ≠ none := by
    intro h
    rw [resolveMandatory_eq_none_iff] at h
    have := h f hf hm
    rw [hc] at this
    cases this
  obtain ⟨e, he⟩ := Option.ne_none_iff_exists'.mp hne
  obtain ⟨g, hg, hgm, hgc, hge⟩ := resolveMandatory_eq_some cmd e he
  rw [honly g hg hgm hgc] at hge
  rw [Resolve_of_mandatory cmd e he, hge]
  have hlit : "mandatory flag " ++ "\"-" = "mandatory flag \"-" := by decide
  simp only [mandatoryMsg, quoted, String.append_assoc]
  rw [← String.append_assoc "mandatory flag " "\"-", hlit,
    show "\"" ++ " not specified" = "\" not specified" from by decide]

theorem missing_mandatory_message_witness :
    Resolve cmdForceDryRun = some "mandatory flag \"-f, --force\" not specified" :=
  missing_mandatory_message cmdForceDryRun forceFlag (List.Mem.head _) rfl rfl
    (fun g hg hgm _ => by
      change g ∈ [forceFlag, mkFlag "dry-run" "n" false] at hg
      rcases List.mem_cons.mp hg with h1 | h1
      · exact h1
      · rw [List.mem_singleton.mp h1] at hgm
        cases hgm)

/-- C14 (one-at-least message, E4): on a command with the oneatleast marker, no
flag with the mandatory marker and no Changed flag, `Resolve` fails with
exactly `one or more flags required: ` followed by the entries
`"-<short>, --<long>"` of all flags of the command, one per flag, in
enumeration order, joined by `, `. -/
theorem one_at_least_message (cmd : Command)
    (hm : (cmd.Annotations kOneAtLeast).isSome = true)
    (hno : ∀ f ∈ cmd.flags, f.Annotations kMandatory = none)
    (hch : ∀ f ∈ cmd.flags, f.Changed = false) :
    Resolve cmd =
      some ("one or more flags required: " ++
        ", ".intercalate
          (cmd.flags.map (fun f => "\"-" ++ f.Shorthand ++ ", --" ++ f.Name ++ "\""))) := by
  have hM : resolveMandatory cmd = none := by
    rw [resolveMandatory_eq_none_iff]
    intro f hf h
    rw [hno f hf] at h
    cases h
  have hv : cmd.flags.filter (fun f => f.Changed) = [] := by
    rw [List.filter_eq_nil_iff]
    intro f hf
    simp [hch f hf]
  have hO : resolveOneAtLeast cmd = some (oneAtLeastMsg (cmd.flags.map
      (fun f => quoted f.Shorthand f.Name))) := by
    unfold resolveOneAtLeast Command.Visit Command.VisitAll
    simp only [hm, if_true, hv, List.foldl_nil]
    rw [foldl_append_singleton (fun f : Flag => quoted f.Shorthand f.Name)]
    rfl
  unfold Resolve
  rw [hM, hO]
  rfl

theorem one_at_least_message_witness :
    Resolve (OneAtLeast (cmdABC false false false)) =
      some "one or more flags required: \"-x, --a\", \"-y, --b\", \"-z, --c\"" :=
  one_at_least_message (OneAtLeast (cmdABC false false false)) rfl (by decide) (by decide)

/-- C15 (no constraints, no failure, E5): on a command on which no constraint
has been registered (no flag has a conflicts, depends or mandatory entry, the
command has no oneatleast marker), `Resolve` succeeds whatever the Changed
bits of the flags are. -/
theorem no_constraints_no_failure (cmd : Command) (hun : Unconstrained cmd) :
    Resolve cmd = none :=
  Resolve_unconstrained cmd hun

theorem no_constraints_no_failure_witness : Resolve (cmdABC true false true) = none :=
  no_constraints_no_failure (cmdABC true false true) ⟨rfl, by decide⟩

/-- C12, the claim as stated fails: with the flags enumerated as `verbose`,
`quiet`, both set, after `Conflicts(cmd, "verbose", "quiet")` the error of
`Resolve` cites `quiet` first and `verbose` second. -/
theorem conflict_message_order_fails :
    Resolve (Conflicts (cmdVerboseQuiet "v" "q") ["verbose", "quiet"]) =
        some "\"-q, --quiet\" conflicts with \"-v, --verbose\"" ∧
      Resolve (Conflicts (cmdVerboseQuiet "v" "q") ["verbose", "quiet"]) ≠
        some "\"-v, --verbose\" conflicts with \"-q, --quiet\"" := by
  decide

/-- C12 (conflict message, E2), amended: for a command whose flags are `verbose`
and `quiet`, both Changed, with no other constraint, after
`Conflicts(cmd, "verbose", "quiet")` `Resolve` fails with a conflicts error
that cites exactly the two flags `verbose` and `quiet`, one as triggering flag
and the other as peer, for each of the two enumeration orders of the flags. -/
theorem conflict_message_cites_both (sv sq : String) :
    (Resolve (Conflicts (cmdQuietVerbose sv sq) ["verbose", "quiet"]) =
        some (conflictsMsg (mkFlag "verbose" sv true) (mkFlag "quiet" sq true)) ∨
      Resolve (Conflicts (cmdQuietVerbose sv sq) ["verbose", "quiet"]) =
        some (conflictsMsg (mkFlag "quiet" sq true) (mkFlag "verbose" sv true))) ∧
    (Resolve (Conflicts (cmdVerboseQuiet sv sq) ["verbose", "quiet"]) =
        some (conflictsMsg (mkFlag "verbose" sv true) (mkFlag "quiet" sq true)) ∨
      Resolve (Conflicts (cmdVerboseQuiet sv sq) ["verbose", "quiet"]) =
        some (conflictsMsg (mkFlag "quiet" sq true) (mkFlag "verbose" sv true))) := by
  constructor
  · exact (Conflicts_pair_outcome (cmdQuietVerbose sv sq) ["verbose", "quiet"]
      "verbose" "quiet" (mkFlag "verbose" sv true) (mkFlag "quiet" sq true)
      ⟨rfl, by simp [cmdQuietVerbose, mkCommand, mkFlag, noAnnotations]⟩
      (by decide) (by decide) (by decide) (by decide) rfl rfl rfl rfl).2
      (by simp [cmdQuietVerbose, mkCommand, mkFlag])
  · exact (Conflicts_pair_outcome (cmdVerboseQuiet sv sq) ["verbose", "quiet"]
      "verbose" "quiet" (mkFlag "verbose" sv true) (mkFlag "quiet" sq true)
      ⟨rfl, by simp [cmdVerboseQuiet, mkCommand, mkFlag, noAnnotations]⟩
      (by decide) (by decide) (by decide) (by decide) rfl rfl rfl rfl).2
      (by simp [cmdVerboseQuiet, mkCommand, mkFlag])

/-! ## Calls with fewer than two names -/

theorem relate_single (key : String) (cmd : Command) (n : String) :
    (List.range [n].length).foldl (relateStep key [n]) cmd =
      { cmd with flags := modifyFlag n (fun f => f.attach key []) cmd.flags } := by
  rw [List.range_eq_range']
  exact relate_range key [] [n] cmd

theorem modifyFlag_forall₂ (Q : Flag → Flag → Prop) (n : String) (g : Flag → Flag)
    (h1 : ∀ f, Q f f) (h2 : ∀ f, Q f (g f)) (fs : List Flag) :
    List.Forall₂ Q fs (modifyFlag n g fs) := by
  induction fs with
  | nil => exact List.Forall₂.nil
  | cons f fs ih =>
    unfold modifyFlag
    by_cases hf : f.Name = n
    · rw [if_pos hf]
      exact List.Forall₂.cons (h2 f) (List.forall₂_same.mpr (fun x _ => h1 x))
    · rw [if_neg hf]
      exact List.Forall₂.cons (h1 f) ih

theorem samePayloads_refl (key : String) (f : Flag) : SamePayloads key f f :=
  ⟨rfl, rfl, rfl, fun _ => rfl, fun _ _ => rfl, Or.inl rfl⟩

theorem samePayloads_attach_nil (key : String) (f : Flag) :
    SamePayloads key f (f.attach key []) := by
  refine ⟨rfl, rfl, rfl, ?_, fun k hk => attach_Annotations_ne f key k [] hk, ?_⟩
  · intro k
    by_cases hk : k = key
    · subst hk
      rw [attach_payload, List.append_nil]
    · unfold Flag.payload
      rw [attach_Annotations_ne f key k [] hk]
  · cases h : f.Annotations key with
    | none =>
      right
      refine ⟨rfl, ?_⟩
      simp [Flag.attach, Flag.setEntry, Flag.payload, h]
    | some l =>
      left
      simp [Flag.attach, Flag.setEntry, Flag.payload, h]

theorem agree_of_samePayloads (key : String) (hkey : kMandatory ≠ key) (f g : Flag)
    (h : SamePayloads key f g) : Agree (fun _ => true) f g := by
  obtain ⟨hN, hS, hC, hpay, hann, -⟩ := h
  refine ⟨hN, hS, hC, by rw [hann _ hkey], ?_, ?_⟩
  · intro p _
    rw [hpay]
  · intro p _
    rw [hpay]

theorem modifyFlag_first (n : String) (gfun : Flag → Flag) (fs : List Flag) :
    List.Forall₂ (fun f g => g = f ∨ (lookupFlag n fs = some f ∧ g = gfun f))
      fs (modifyFlag n gfun fs) := by
  induction fs with
  | nil => exact List.Forall₂.nil
  | cons f fs ih =>
    unfold modifyFlag
    by_cases hf : f.Name = n
    · rw [if_pos hf]
      refine List.Forall₂.cons (Or.inr ⟨by simp [lookupFlag, hf], rfl⟩) ?_
      exact List.forall₂_same.mpr (fun x _ => Or.inl rfl)
    · rw [if_neg hf]
      refine List.Forall₂.cons (Or.inl rfl) (ih.imp ?_)
      intro x y hxy
      rcases hxy with h | ⟨h1, h2⟩
      · exact Or.inl h
      · exact Or.inr ⟨by unfold lookupFlag; rw [if_neg hf]; exact h1, h2⟩

/-- A registration call with a single name, seen from the command. -/
theorem relate_single_effect (key : String) (hkey : kMandatory ≠ key) (cmd : Command)
    (n : String) :
    (cmd.lookup n = none → (List.range [n].length).foldl (relateStep key [n]) cmd = cmd) ∧
    ((List.range [n].length).foldl (relateStep key [n]) cmd).Annotations = cmd.Annotations ∧
    List.Forall₂ (fun f g => SamePayloads key f g ∧ (g = f ∨ cmd.lookup n = some f))
      cmd.flags ((List.range [n].length).foldl (relateStep key [n]) cmd).flags ∧
    Resolve ((List.range [n].length).foldl (relateStep key [n]) cmd) = Resolve cmd := by
  rw [relate_single]
  have hF : List.Forall₂ (fun f g => SamePayloads key f g ∧ (g = f ∨ cmd.lookup n = some f))
      cmd.flags (modifyFlag n (fun f => f.attach key []) cmd.flags) := by
    refine (modifyFlag_first n (fun f => f.attach key []) cmd.flags).imp ?_
    intro f g hfg
    rcases hfg with h | ⟨h1, h2⟩
    · rw [h]
      exact ⟨samePayloads_refl key f, Or.inl rfl⟩
    · rw [h2]
      exact ⟨samePayloads_attach_nil key f, Or.inr h1⟩
  refine ⟨?_, rfl, hF, ?_⟩
  · intro h
    rw [modifyFlag_of_lookup_none _ _ _ h]
  · symm
    refine Resolve_congr _ _ (fun _ => true) (fun _ _ _ => rfl) ?_ ?_
    · rfl
    · exact hF.imp (fun f g h => agree_of_samePayloads key hkey f g h.1)

/-- C16, the claim as stated fails: a single name that resolves to a flag
without a conflicts (depends) entry leaves that flag with the key present and
an empty payload, so the keys of the metadata map are not the same as before
the call. -/
theorem single_name_creates_entry :
    (cmdABC false false false).flags.map (fun f => f.Annotations kConflicts) =
        [none, none, none] ∧
      (Conflicts (cmdABC false false false) ["a"]).flags.map
          (fun f => f.Annotations kConflicts) = [some [], none, none] ∧
      (Depends (cmdABC false false false) ["a"]).flags.map
          (fun f => f.Annotations kDepends) = [some [], none, none] := by
  decide

/-- C16 (arity 0 or 1), amended: `Conflicts` and `Depends` called with an empty
list, or with a single name that resolves to no flag, leave the command as it
was.  Called with a single name that resolves to a flag, they leave the
command's own metadata and every flag other than the one the name resolves to
exactly as they were; of the flag the name resolves to they leave the names,
the Changed bit, the payload read under every key and every stored key other
than conflicts (resp. depends) as they were, the only possible change being
that its conflicts (resp. depends) key, when it was absent, becomes present
with an empty payload.  In every case `Resolve` returns what it returned
before the call. -/
theorem arity_zero_or_one (cmd : Command) (n : String) :
    (Conflicts cmd [] = cmd ∧ Depends cmd [] = cmd) ∧
    ((cmd.lookup n = none → Conflicts cmd [n] = cmd) ∧
      (Conflicts cmd [n]).Annotations = cmd.Annotations ∧
      List.Forall₂
        (fun f g => SamePayloads kConflicts f g ∧ (g = f ∨ cmd.lookup n = some f))
        cmd.flags (Conflicts cmd [n]).flags ∧
      Resolve (Conflicts cmd [n]) = Resolve cmd) ∧
    ((cmd.lookup n = none → Depends cmd [n] = cmd) ∧
      (Depends cmd [n]).Annotations = cmd.Annotations ∧
      List.Forall₂
        (fun f g => SamePayloads kDepends f g ∧ (g = f ∨ cmd.lookup n = some f))
        cmd.flags (Depends cmd [n]).flags ∧
      Resolve (Depends cmd [n]) = Resolve cmd) :=
  ⟨⟨rfl, rfl⟩, relate_single_effect kConflicts kMandatory_ne_kConflicts cmd n,
    relate_single_effect kDepends kMandatory_ne_kDepends cmd n⟩

theorem arity_zero_or_one_witness :
    Conflicts cmdForce ["doesnotexist"] = cmdForce :=
  (arity_zero_or_one cmdForce "doesnotexist").2.1.1 rfl

/-- C17 (what `OneAtLeast` does to the command's metadata): on a command whose
metadata already holds the key `group`, `OneAtLeast(cmd)` stores the
oneatleast key with an empty payload and the key `group` is gone: the call
replaces the map by a fresh one instead of creating it only when it is
missing, as the registration functions for flags do. -/
theorem OneAtLeast_drops_other_keys :
    cmdGroup.Annotations "group" = some "core" ∧
      (OneAtLeast cmdGroup).Annotations kOneAtLeast = some "" ∧
      (OneAtLeast cmdGroup).Annotations "group" = none := by
  decide

/-! ## The payload a registration call leaves -/

theorem pairsFrom_eq_range' (pre post : List String) :
    pairsFrom pre post =
      (List.range' pre.length post.length).map
        (fun i => ((pre ++ post).getD i "", (pre ++ post).eraseIdx i)) := by
  induction post generalizing pre with
  | nil => rfl
  | cons x post ih =>
    rw [pairsFrom_cons, List.length_cons, List.range'_succ, List.map_cons,
      getD_append_length, List.eraseIdx_eq_take_drop_succ]
    have ho := others_append pre post x
    unfold others at ho
    rw [ho, ih (pre ++ [x])]
    simp only [List.length_append, List.length_singleton, List.append_assoc,
      List.singleton_append]

theorem pairsFrom_eq_range (names : List String) :
    pairsFrom [] names =
      (List.range names.length).map (fun i => (names.getD i "", names.eraseIdx i)) := by
  rw [pairsFrom_eq_range', List.range_eq_range']
  rfl

theorem pairs_payload (names : List String) (n : String) :
    ((pairsFrom [] names).filter (fun u => u.1 = n)).flatMap (fun u => u.2) =
      ((List.range names.length).filter (fun i => names.getD i "" = n)).flatMap
        (fun i => names.eraseIdx i) := by
  rw [pairsFrom_eq_range, List.filter_map, List.flatMap_map]
  rfl

theorem register_pointwise (key : String) (names : List String)
    (ups : List (String × List String)) (hups : ∀ u ∈ ups, u.1 ∈ names) (fs : List Flag) :
    List.Forall₂
      (fun f g => g.Name = f.Name ∧ g.Shorthand = f.Shorthand ∧ g.Changed = f.Changed ∧
        (∀ k, k ≠ key → g.Annotations k = f.Annotations k) ∧ (f.Name ∉ names → g = f))
      fs (register key ups fs) := by
  induction fs generalizing ups with
  | nil => exact List.Forall₂.nil
  | cons f fs ih =>
    unfold register
    refine List.Forall₂.cons ?_ (ih _ (fun u hu => hups u (List.mem_filter.mp hu).1))
    refine ⟨by simp, by simp, by simp, fun k hk => attachAll_Annotations_ne _ _ _ _ hk, ?_⟩
    intro hn
    have : ups.filter (fun u => u.1 = f.Name) = [] := by
      rw [List.filter_eq_nil_iff]
      intro u hu h
      simp only [decide_eq_true_eq] at h
      exact hn (h ▸ hups u hu)
    rw [this]
    rfl

/-- The net effect of the loop of `Conflicts` and `Depends` under its key. -/
theorem relate_registers_payload (key : String) :
    RegistersPayload key
      (fun cmd names => (List.range names.length).foldl (relateStep key names) cmd) := by
  intro cmd names
  have heq : (List.range names.length).foldl (relateStep key names) cmd =
      { cmd with flags := register key (pairsFrom [] names) cmd.flags } := by
    rw [List.range_eq_range']
    have := relate_range key [] names cmd
    simp only [List.length_nil, List.nil_append] at this
    rw [this, foldl_attachAt_eq_register]
  beta_reduce
  rw [heq]
  refine ⟨rfl, ?_, ?_, ?_⟩
  · intro n hn
    rw [lookup_register, hn]
    rfl
  · intro n f hf
    refine ⟨attachAll key f ((pairsFrom [] names).filter (fun u => u.1 = n)), ?_, by simp,
      by simp, by simp, fun k hk => attachAll_Annotations_ne _ _ _ _ hk, ?_⟩
    · rw [lookup_register, hf]
      rfl
    · rw [attachAll_payload, pairs_payload]
  · exact register_pointwise key names _ (fun u hu => (pairs_subset names u hu).1) cmd.flags

/-! ## Invariants of sequences of registration calls -/

theorem pairs_symm (names : List String) (n m : String)
    (h : ∃ u ∈ pairsFrom [] names, u.1 = n ∧ m ∈ u.2) :
    ∃ v ∈ pairsFrom [] names, v.1 = m ∧ n ∈ v.2 := by
  obtain ⟨u, hu, hn, hm⟩ := h
  obtain ⟨p1, p2, hp, hu2⟩ := mem_pairsFrom _ _ _ hu
  rw [hu2] at hm
  simp only [List.nil_append, List.mem_append] at hm
  rw [hn] at hp
  rcases hm with hm | hm
  · obtain ⟨q1, q2, hq⟩ := List.append_of_mem hm
    refine ⟨(m, [] ++ (q1 ++ (q2 ++ n :: p2))), ?_, rfl, by simp⟩
    have : names = q1 ++ m :: (q2 ++ n :: p2) := by rw [hp, hq]; simp
    rw [this]
    exact pairsFrom_mem [] q1 (q2 ++ n :: p2) m
  · obtain ⟨q1, q2, hq⟩ := List.append_of_mem hm
    refine ⟨(m, [] ++ ((p1 ++ n :: q1) ++ q2)), ?_, rfl, by simp⟩
    have : names = (p1 ++ n :: q1) ++ m :: q2 := by rw [hp, hq]; simp
    rw [this]
    exact pairsFrom_mem [] (p1 ++ n :: q1) q2 m

theorem forall₂_mem_right (R : Flag → Flag → Prop) (l1 l2 : List Flag)
    (h : List.Forall₂ R l1 l2) (g : Flag) (hg : g ∈ l2) : ∃ f ∈ l1, R f g := by
  induction h with
  | nil => cases hg
  | cons hab hrest ih =>
    rename_i a b as bs
    rcases List.mem_cons.mp hg with h1 | h1
    · exact ⟨a, List.mem_cons_self _ _, h1 ▸ hab⟩
    · obtain ⟨f, hf, hr⟩ := ih h1
      exact ⟨f, List.mem_cons_of_mem _ hf, hr⟩

theorem forall₂_comp (R S T : Flag → Flag → Prop) (hT : ∀ a b c, R a b → S b c → T a c)
    (l1 l2 l3 : List Flag) (h1 : List.Forall₂ R l1 l2) (h2 : List.Forall₂ S l2 l3) :
    List.Forall₂ T l1 l3 := by
  induction h1 generalizing l3 with
  | nil => cases h2; exact List.Forall₂.nil
  | cons hab hrest ih =>
    cases h2 with
    | cons hbc hrest2 => exact List.Forall₂.cons (hT _ _ _ hab hbc) (ih _ hrest2)

theorem sameExcept_refl (key : String) (f : Flag) : SameExcept key f f :=
  ⟨rfl, rfl, rfl, fun _ _ => rfl⟩

theorem sameExcept_trans (key : String) (a b c : Flag) (h1 : SameExcept key a b)
    (h2 : SameExcept key b c) : SameExcept key a c :=
  ⟨h2.1.trans h1.1, h2.2.1.trans h1.2.1, h2.2.2.1.trans h1.2.2.1,
    fun k hk => (h2.2.2.2 k hk).trans (h1.2.2.2 k hk)⟩

theorem sameExcept_payload (key k : String) (f g : Flag) (h : SameExcept key f g)
    (hk : k ≠ key) : g.payload k = f.payload k := by
  unfold Flag.payload
  rw [h.2.2.2 k hk]

theorem foldl_markAt_sameExcept (names : List String) (fs : List Flag) :
    List.Forall₂ (SameExcept kMandatory) fs (names.foldl markAt fs) := by
  induction names generalizing fs with
  | nil => exact List.forall₂_same.mpr (fun f _ => sameExcept_refl _ f)
  | cons n ns ih =>
    rw [List.foldl_cons]
    refine forall₂_comp _ _ _ (sameExcept_trans kMandatory) _ _ _ ?_ (ih (markAt fs n))
    unfold markAt
    refine modifyFlag_forall₂ _ n _ (sameExcept_refl _) ?_ fs
    intro f
    refine ⟨rfl, rfl, rfl, ?_⟩
    intro k hk
    simp [Flag.setEntry, hk]

theorem Mandatory_sameExcept (cmd : Command) (names : List String) :
    List.Forall₂ (SameExcept kMandatory) cmd.flags (Mandatory cmd names).flags := by
  rw [Mandatory_eq]
  exact foldl_markAt_sameExcept names cmd.flags

theorem register_sameExcept (key : String) (ups : List (String × List String))
    (fs : List Flag) : List.Forall₂ (SameExcept key) fs (register key ups fs) := by
  induction fs generalizing ups with
  | nil => exact List.Forall₂.nil
  | cons f fs ih =>
    unfold register
    exact List.Forall₂.cons
      ⟨by simp, by simp, by simp, fun k hk => attachAll_Annotations_ne _ _ _ _ hk⟩ (ih _)

theorem mirroredKey_register (k key : String) (cmd : Command) (names : List String)
    (h : MirroredKey k cmd) :
    MirroredKey k { cmd with flags := register key (pairsFrom [] names) cmd.flags } := by
  intro n m f1 g1 hf1 hg1
  rw [lookup_register] at hf1 hg1
  cases hln : cmd.lookup n with
  | none => rw [hln] at hf1; cases hf1
  | some f =>
    cases hlm : cmd.lookup m with
    | none => rw [hlm] at hg1; cases hg1
    | some g =>
      rw [hln] at hf1
      rw [hlm] at hg1
      simp only [Option.map_some', Option.some.injEq] at hf1 hg1
      subst hf1
      subst hg1
      have ih := h n m f g hln hlm
      by_cases hk : k = key
      · subst hk
        rw [attachAll_payload, attachAll_payload, List.mem_append, List.mem_append,
          List.mem_flatMap, List.mem_flatMap]
        constructor
        · rintro (h1 | ⟨u, hu, hmu⟩)
          · exact Or.inl (ih.mp h1)
          · right
            rw [List.mem_filter] at hu
            obtain ⟨v, hv, hv1, hv2⟩ :=
              pairs_symm names n m ⟨u, hu.1, by simpa using hu.2, hmu⟩
            exact ⟨v, List.mem_filter.mpr ⟨hv, by simpa using hv1⟩, hv2⟩
        · rintro (h1 | ⟨u, hu, hmu⟩)
          · exact Or.inl (ih.mpr h1)
          · right
            rw [List.mem_filter] at hu
            obtain ⟨v, hv, hv1, hv2⟩ :=
              pairs_symm names m n ⟨u, hu.1, by simpa using hu.2, hmu⟩
            exact ⟨v, List.mem_filter.mpr ⟨hv, by simpa using hv1⟩, hv2⟩
      · rw [attachAll_payload_ne _ _ _ _ hk, attachAll_payload_ne _ _ _ _ hk]
        exact ih

theorem mirroredKey_Mandatory (k : String) (hk : k ≠ kMandatory) (cmd : Command)
    (names : List String) (h : MirroredKey k cmd) : MirroredKey k (Mandatory cmd names) := by
  intro n m f1 g1 hf1 hg1
  have hF := Mandatory_sameExcept cmd names
  unfold Command.lookup at hf1 hg1
  rcases lookupFlag_forall₂ _ (fun f g hfg => hfg.1) _ _ hF n with ⟨-, h2⟩ | ⟨f, f2, h1, h2, hr⟩
  · rw [h2] at hf1; cases hf1
  · rcases lookupFlag_forall₂ _ (fun f g hfg => hfg.1) _ _ hF m with
      ⟨-, h4⟩ | ⟨g, g2, h3, h4, hs⟩
    · rw [h4] at hg1; cases hg1
    · rw [h2] at hf1
      rw [h4] at hg1
      cases hf1
      cases hg1
      rw [sameExcept_payload _ _ _ _ hr hk, sameExcept_payload _ _ _ _ hs hk]
      exact h n m f g h1 h3

theorem mirroredKey_applyCall (k : String) (hk : k ≠ kMandatory) (cmd : Command) (c : Call)
    (h : MirroredKey k cmd) : MirroredKey k (applyCall cmd c) := by
  cases c with
  | conflicts names =>
    show MirroredKey k (Conflicts cmd names)
    rw [Conflicts_reg]
    exact mirroredKey_register k kConflicts cmd names h
  | depends names =>
    show MirroredKey k (Depends cmd names)
    rw [Depends_reg]
    exact mirroredKey_register k kDepends cmd names h
  | mandatory names => exact mirroredKey_Mandatory k hk cmd names h
  | oneAtLeast => exact h

theorem mirroredKey_applyCalls (k : String) (hk : k ≠ kMandatory) (calls : List Call)
    (cmd : Command) (h : MirroredKey k cmd) : MirroredKey k (applyCalls cmd calls) := by
  induction calls generalizing cmd with
  | nil => exact h
  | cons c cs ih => exact ih _ (mirroredKey_applyCall k hk cmd c h)

theorem mirroredKey_of_empty (k : String) (cmd : Command)
    (h : ∀ f ∈ cmd.flags, f.Annotations k = none) : MirroredKey k cmd := by
  intro n m f g hf hg
  rw [payload_of_none _ _ (h f (lookupFlag_some _ _ _ hf).2),
    payload_of_none _ _ (h g (lookupFlag_some _ _ _ hg).2)]
  simp

theorem noSelfConflict_applyCall (cmd : Command) (c : Call)
    (hc : ∀ names, c = Call.conflicts names → names.Nodup) (h : NoSelfConflict cmd) :
    NoSelfConflict (applyCall cmd c) := by
  cases c with
  | conflicts names =>
    show NoSelfConflict (Conflicts cmd names)
    rw [Conflicts_reg]
    intro g hg hself
    obtain ⟨f, hf, hN, -, -, -, hpay⟩ := mem_register_frame _ _ _ g hg
    rcases hpay _ hself with hx | ⟨-, u, hu, hu1, hu2⟩
    · rw [hN] at hx
      exact h f hf hx
    · rw [hN, ← hu1] at hu2
      exact pairs_not_self names (hc names rfl) u hu hu2
  | depends names =>
    show NoSelfConflict (Depends cmd names)
    rw [Depends_reg]
    intro g hg hself
    obtain ⟨f, hf, hr⟩ := forall₂_mem_right _ _ _ (register_sameExcept kDepends _ cmd.flags) g hg
    rw [sameExcept_payload _ _ _ _ hr kConflicts_ne_kDepends, hr.1] at hself
    exact h f hf hself
  | mandatory names =>
    intro g hg hself
    obtain ⟨f, hf, hr⟩ := forall₂_mem_right _ _ _ (Mandatory_sameExcept cmd names) g hg
    rw [sameExcept_payload _ _ _ _ hr (Ne.symm kMandatory_ne_kConflicts), hr.1] at hself
    exact h f hf hself
  | oneAtLeast => exact h

theorem noSelfConflict_applyCalls (calls : List Call) (cmd : Command)
    (hc : ∀ names, Call.conflicts names ∈ calls → names.Nodup) (h : NoSelfConflict cmd) :
    NoSelfConflict (applyCalls cmd calls) := by
  induction calls generalizing cmd with
  | nil => exact h
  | cons c cs ih =>
    refine ih _ (fun names hn => hc names (List.mem_cons_of_mem _ hn)) ?_
    exact noSelfConflict_applyCall cmd c
      (fun names hcn => hc names (hcn ▸ List.mem_cons_self _ _)) h

/-- After `Conflicts(cmd, a, a)` on a command without constraints, the flag of
`a` holds its own name twice and, once set, conflicts with itself. -/
theorem Conflicts_repeated (cmd : Command) (a : String) (fa : Flag)
    (hun : Unconstrained cmd) (hfa : cmd.lookup a = some fa) :
    (∃ g, (Conflicts cmd [a, a]).lookup a = some g ∧ g.payload kConflicts = [a, a]) ∧
    (fa.Changed = true → Resolve (Conflicts cmd [a, a]) = some (conflictsMsg fa fa)) := by
  have hpairs : pairsFrom [] [a, a] = [(a, [a]), (a, [a])] := rfl
  have hl : (Conflicts cmd [a, a]).lookup a =
      some (attachAll kConflicts fa ((pairsFrom [] [a, a]).filter (fun u => u.1 = a))) := by
    rw [Conflicts_reg, lookup_register, hfa]
    rfl
  have hpay : (attachAll kConflicts fa
      ((pairsFrom [] [a, a]).filter (fun u => u.1 = a))).payload kConflicts = [a, a] := by
    rw [attachAll_payload, payload_of_none _ _ (hun.2 fa (lookupFlag_some _ _ _ hfa).2).1,
      hpairs]
    simp
  refine ⟨⟨_, hl, hpay⟩, ?_⟩
  intro hca
  have hne : Resolve (Conflicts cmd [a, a]) ≠ none := by
    intro h
    rw [Resolve_success_iff] at h
    obtain ⟨-, -, hC, -⟩ := h
    have := hC _ (lookupFlag_some _ _ _ hl).2 (by simpa using hca) a
      (by rw [hpay]; simp) _ hl
    rw [attachAll_Changed, hca] at this
    cases this
  obtain ⟨e, he⟩ := Option.ne_none_iff_exists'.mp hne
  obtain ⟨f, o, n, u, hu, hfirst, hfc, hu1, hu2, hlo, hoc, hmsg⟩ :=
    Resolve_Conflicts_error cmd [a, a] hun e he
  rw [hpairs] at hu
  simp only [List.mem_cons, List.mem_singleton, List.not_mem_nil, or_false, or_self] at hu
  subst hu
  simp only [List.mem_singleton] at hu2
  subst hu2
  rw [← hu1, hfa] at hfirst
  rw [hfa] at hlo
  cases hfirst
  cases hlo
  rw [he, hmsg]

/-- C18 (mirrored relations): on a command whose flags hold no conflicts and no
depends entry at the start (in particular when all metadata is empty), after
any finite sequence of `Conflicts`, `Depends`, `Mandatory` and `OneAtLeast`
calls with arbitrary arguments, for every two existing flags `f` and `g` (the
flags their names resolve to), the name of `g` occurs in the conflicts payload
of `f` if and only if the name of `f` occurs in the conflicts payload of `g`,
and likewise for the depends payloads. -/
theorem mirrored_relations (cmd : Command) (calls : List Call)
    (hempty : ∀ f ∈ cmd.flags, f.Annotations kConflicts = none ∧
      f.Annotations kDepends = none) :
    ∀ f g, (applyCalls cmd calls).lookup f.Name = some f →
      (applyCalls cmd calls).lookup g.Name = some g →
      (g.Name ∈ f.payload kConflicts ↔ f.Name ∈ g.payload kConflicts) ∧
      (g.Name ∈ f.payload kDepends ↔ f.Name ∈ g.payload kDepends) := by
  intro f g hf hg
  exact ⟨mirroredKey_applyCalls kConflicts (Ne.symm kMandatory_ne_kConflicts) calls cmd
      (mirroredKey_of_empty _ cmd (fun x hx => (hempty x hx).1)) _ _ f g hf hg,
    mirroredKey_applyCalls kDepends (Ne.symm kMandatory_ne_kDepends) calls cmd
      (mirroredKey_of_empty _ cmd (fun x hx => (hempty x hx).2)) _ _ f g hf hg⟩

theorem mirrored_relations_witness :
    ((mirrorFlag "b").Name ∈ (mirrorFlag "a").payload kConflicts ↔
        (mirrorFlag "a").Name ∈ (mirrorFlag "b").payload kConflicts) ∧
      ((mirrorFlag "b").Name ∈ (mirrorFlag "a").payload kDepends ↔
        (mirrorFlag "a").Name ∈ (mirrorFlag "b").payload kDepends) :=
  mirrored_relations (cmdABC false false false)
    [Call.conflicts ["a", "b", "a"], Call.depends ["c", "zz", "a"], Call.mandatory ["b"],
      Call.oneAtLeast, Call.conflicts ["c", "b"]] (by decide)
    (mirrorFlag "a") (mirrorFlag "b") rfl rfl

/-- C19 (registration payload): `Conflicts(cmd, names...)` leaves, for every
name that resolves to a flag, that flag with its previous conflicts payload
followed, for each position of the list holding that name, taken in order, by
the names with that position removed (all other positions kept, in input
order, unknown and repeated names included); flags not named and all other
metadata keys are unchanged.  `Depends` does the same on the depends key. -/
theorem registration_payload :
    RegistersPayload kConflicts Conflicts ∧ RegistersPayload kDepends Depends :=
  ⟨relate_registers_payload kConflicts, relate_registers_payload kDepends⟩

/-- C20 (a repeated name): on a command without constraints with an existing
flag `a`, after `Conflicts(cmd, "a", "a")` the conflicts payload of `a` holds
its own name, and whenever `a` is Changed `Resolve` fails with the conflicts
error that names `a` on both sides; whereas after any sequence of registration
calls on a command without constraints in which every `Conflicts` call has
pairwise distinct names, no flag has its own name in its conflicts payload. -/
theorem repeated_name_self_conflict :
    (∀ (cmd : Command) (a : String) (fa : Flag), Unconstrained cmd →
      cmd.lookup a = some fa →
      (∃ g, (Conflicts cmd [a, a]).lookup a = some g ∧ a ∈ g.payload kConflicts) ∧
      (fa.Changed = true →
        Resolve (Conflicts cmd [a, a]) =
          some (quoted fa.Shorthand a ++ " conflicts with " ++ quoted fa.Shorthand a))) ∧
    (∀ (cmd : Command) (calls : List Call), Unconstrained cmd →
      (∀ names, Call.conflicts names ∈ calls → names.Nodup) →
      ∀ f ∈ (applyCalls cmd calls).flags, f.Name ∉ f.payload kConflicts) := by
  constructor
  · intro cmd a fa hun hfa
    obtain ⟨⟨g, hg, hpay⟩, hres⟩ := Conflicts_repeated cmd a fa hun hfa
    refine ⟨⟨g, hg, by rw [hpay]; simp⟩, ?_⟩
    intro hca
    rw [hres hca]
    simp [conflictsMsg, (lookupFlag_some _ _ _ hfa).1]
  · intro cmd calls hun hnd
    refine noSelfConflict_applyCalls calls cmd hnd ?_
    intro f hf
    rw [payload_of_none _ _ (hun.2 f hf).1]
    simp

theorem repeated_name_self_conflict_witness :
    ((∃ g, (Conflicts (cmdABC true false false) ["a", "a"]).lookup "a" = some g ∧
        "a" ∈ g.payload kConflicts) ∧
      Resolve (Conflicts (cmdABC true false false) ["a", "a"]) =
        some "\"-x, --a\" conflicts with \"-x, --a\"") ∧
    (distinctFlag "a").Name ∉ (distinctFlag "a").payload kConflicts :=
  ⟨⟨(repeated_name_self_conflict.1 (cmdABC true false false) "a" (mkFlag "a" "x" true)
        ⟨rfl, by decide⟩ rfl).1,
      (repeated_name_self_conflict.1 (cmdABC true false false) "a" (mkFlag "a" "x" true)
        ⟨rfl, by decide⟩ rfl).2 rfl⟩,
    repeated_name_self_conflict.2 (cmdABC true false false)
      [Call.conflicts ["a", "b"], Call.mandatory ["a"], Call.conflicts ["c", "a"]]
      ⟨rfl, by decide⟩
      (fun names hn => by
        simp only [List.mem_cons, Call.conflicts.injEq, reduceCtorEq, List.mem_singleton,
          List.not_mem_nil, or_false, false_or] at hn
        rcases hn with h | h <;> rw [h] <;> decide)
      (distinctFlag "a") (List.Mem.head _)⟩

end Rpflag
